import Mathlib

/-!
# Verification of the incremental builder core (`src/compiler/builder.ts`)

This file gives a shallow embedding of the builder-program core: the
`BuilderProgramState` data model, the state constructor / diff engine
(`createBuilderProgramState`), the two-phase affected-file iterator
(`getNextAffectedFile` / `doneWithAffectedFile`), the per-file semantic
diagnostics cache (`getSemanticDiagnosticsOfFile`) and the top-level
`createBuilderProgram` entry point, together with proofs of the stated
properties.

JS `Map`s are modelled as insertion-ordered association lists (`set` on an
existing key keeps its position, on a new key appends; `delete` filters the
key out; iteration order is list order, matching JS `Map` insertion order).
JS sets (`Map<true>`) are modelled as insertion-ordered duplicate-free
lists of keys.  `undefined`-able fields are `Option`s.

The sibling file `builderState.ts` is not part of the sources; the few
members of its contract that the builder uses (`BuilderState.create`,
`canReuseOldState`, `updateSignaturesFromCache`, `getFilesAffectedBy`) are
modelled from the specification, as noted at each definition.
-/

set_option linter.unusedVariables false
set_option linter.unnecessarySimpa false

namespace ts

/-- Canonical, case-normalized file identifier (ts `Path`). -/
abbrev Path := String

/-- A semantic diagnostic.  Its contents are irrelevant to the builder core,
which only stores and returns diagnostics; it is modelled as an opaque
message string. -/
abbrev Diag := String

/-- Per-file information held in `fileInfos` (builderState `FileInfo`):
a content `version` and an optional shape `signature`. -/
structure FileInfo where
  version : String
  signature : Option String
deriving DecidableEq, Repr

/-- JS `Map.get`: first (unique) binding of the key, if any. -/
def lookupA {α : Type} : List (Path × α) → Path → Option α
  | [], _ => none
  | (k', v) :: rest, k => if k' = k then some v else lookupA rest k

/-- JS `Map.has`. -/
def hasA {α : Type} (m : List (Path × α)) (k : Path) : Bool :=
  (lookupA m k).isSome

/-- JS `Map.set`: overwrite in place if present (keeping insertion order),
otherwise append. -/
def setA {α : Type} : List (Path × α) → Path → α → List (Path × α)
  | [], k, v => [(k, v)]
  | (k', v') :: rest, k, v =>
    if k' = k then (k, v) :: rest else (k', v') :: setA rest k v

/-- JS `Map.delete` (also used for `Map<true>` sets). -/
def delA {α : Type} (m : List (Path × α)) (k : Path) : List (Path × α) :=
  m.filter (fun e => e.1 ≠ k)

/-- Add a key to a JS `Map<true>`-style set: no-op when present, append
otherwise. -/
def addS (s : List Path) (k : Path) : List Path :=
  if k ∈ s then s else s ++ [k]

/-- Remove a key from a JS `Map<true>`-style set. -/
def delS (s : List Path) (k : Path) : List Path :=
  s.filter (fun e => e ≠ k)

/-- The external compiler `Program` contract, restricted to the members the
builder core consults.  `files` and `referencedMap` are the data that the
(absent) `BuilderState.create` derives from the program — modelled from the
spec: "construct-from-program ... produces `fileInfos` and optional
`referencedMap`".  `diags` gives `Program.getSemanticDiagnostics(file)`.
`pid` stands for the object identity that `===` compares. -/
structure Program where
  pid : Nat
  outFile : Bool
  out : Bool
  files : List (Path × FileInfo)
  referencedMap : Option (List (Path × List Path))
  diags : List (Path × List Diag)
deriving DecidableEq, Repr

/-- `Program.getSemanticDiagnostics(sourceFile)` for a single file. -/
def Program.semanticDiagnosticsOf (p : Program) (f : Path) : List Diag :=
  (lookupA p.diags f).getD []

/-- `BuilderProgramState` (builder.ts lines 8–42).  Fields that are
`T | undefined` in the source are `Option`s here. -/
structure BuilderProgramState where
  fileInfos : List (Path × FileInfo)
  referencedMap : Option (List (Path × List Path))
  semanticDiagnosticsPerFile : Option (List (Path × List Diag))
  changedFilesSet : List Path
  affectedFiles : Option (List Path)
  affectedFilesIndex : Option Nat
  currentChangedFilePath : Option Path
  currentAffectedFilesSignatures : Option (List (Path × String))
  seenAffectedFiles : Option (List Path)
  program : Program
deriving DecidableEq, Repr

/-- The sum returned by `getNextAffectedFile`: a source file, or the whole
program (`state.program`, used as a sentinel when output is bundled). -/
inductive AffectedUnit where
  | file (f : Path)
  | wholeProgram
deriving DecidableEq, Repr

/-- `BuilderState.getFilesAffectedBy` abstracted: given the builder-state
data it reads (`fileInfos`, `referencedMap`) and the changed root path, it
returns the ordered affected-file sequence and the signature entries it
writes into the pending signature map.  Modelled from the spec:
"computes the transitive affected set from one changed root, writing
recomputed signatures into `outSignatures` without committing them to
`fileInfos`" (the function itself lives in the absent `builderState.ts`,
so it is kept as a parameter of the iterator). -/
abbrev GetFilesAffectedBy :=
  List (Path × FileInfo) → Option (List (Path × List Path)) → Path →
    List Path × List (Path × String)

/-- Content of a possibly-absent `seenAffectedFiles` map. -/
def seenL (s : BuilderProgramState) : List Path :=
  s.seenAffectedFiles.getD []

/-- Content of a possibly-absent `currentAffectedFilesSignatures` map. -/
def sigsL (s : BuilderProgramState) : List (Path × String) :=
  s.currentAffectedFilesSignatures.getD []

/-- Lookup in the (possibly absent) semantic-diagnostics cache. -/
def diagLookup (s : BuilderProgramState) (p : Path) : Option (List Diag) :=
  match s.semanticDiagnosticsPerFile with
  | none => none
  | some m => lookupA m p

/-- `semanticDiagnosticsPerFile.has(p)` (false when the cache is absent). -/
def diagHas (s : BuilderProgramState) (p : Path) : Bool :=
  (diagLookup s p).isSome

/-- builder.ts `hasSameKeys` (lines 44–53): both maps absent, or both
present with equal size and every key of the first present in the second. -/
def hasSameKeys (map1 map2 : Option (List Path)) : Bool :=
  match map1 with
  | none => map2.isNone
  | some l1 =>
    match map2 with
    | none => false
    | some l2 => l1.length == l2.length && l1.all (fun k => l2.contains k)

/-- `BuilderState.canReuseOldState`.  Modelled from the spec (the function
lives in the absent `builderState.ts`): "true iff the reference map's
presence matches between old and new" — and there must be an old state at
all. -/
def canReuseOldState (newReferencedMap : Option (List (Path × List Path)))
    (oldState : Option BuilderProgramState) : Bool :=
  match oldState with
  | none => false
  | some o => o.referencedMap.isSome == newReferencedMap.isSome

/-- The per-file changed test of `createBuilderProgramState` (builder.ts
lines 89–97): not reusing the old state, or the file is new, or its version
changed, or its reference set changed keys, or one of its referenced files
was deleted from the new program. -/
def isFileChanged (useOldState : Bool) (oldState : Option BuilderProgramState)
    (newProgram : Program) (sourceFilePath : Path) (info : FileInfo) : Bool :=
  !useOldState ||
    (match oldState with
     | none => true
     | some o =>
       match lookupA o.fileInfos sourceFilePath with
       | none => true
       | some oldInfo =>
         oldInfo.version != info.version ||
           (let newReferences :=
              newProgram.referencedMap.bind (fun m => lookupA m sourceFilePath)
            let oldReferences :=
              o.referencedMap.bind (fun m => lookupA m sourceFilePath)
            !hasSameKeys newReferences oldReferences ||
              (match newReferences with
               | none => false
               | some refs =>
                 refs.any (fun path =>
                   !hasA newProgram.files path && hasA o.fileInfos path))))

/-- `canCopySemanticDiagnostics` of `createBuilderProgramState` (line 67):
reusing the old state, the old state has a diagnostics cache, and the new
state has one too (i.e. output is not bundled). -/
def canCopySemanticDiagnostics (newProgram : Program)
    (oldState : Option BuilderProgramState) : Bool :=
  canReuseOldState newProgram.referencedMap oldState &&
    (match oldState with
     | none => false
     | some o => o.semanticDiagnosticsPerFile.isSome) &&
    !(newProgram.outFile || newProgram.out)

/-- One iteration of the `state.fileInfos.forEach` loop of
`createBuilderProgramState` (builder.ts lines 84–108): flag the file as
changed, or copy its old diagnostics forward when allowed. -/
def diffStep (useOldState canCopy : Bool) (oldState : Option BuilderProgramState)
    (newProgram : Program) (acc : List Path × List (Path × List Diag))
    (pi : Path × FileInfo) : List Path × List (Path × List Diag) :=
  if isFileChanged useOldState oldState newProgram pi.1 pi.2 then
    (addS acc.1 pi.1, acc.2)
  else if canCopy then
    match oldState with
    | some o =>
      match (match o.semanticDiagnosticsPerFile with
             | some m => lookupA m pi.1
             | none => none) with
      | some diagnostics => (acc.1, setA acc.2 pi.1 diagnostics)
      | none => acc
    | none => acc
  else acc

/-- builder.ts `createBuilderProgramState` (lines 58–111).  The
`BuilderState.create` base (fresh `fileInfos`/`referencedMap` from the new
program) is modelled from the spec as reading `newProgram.files` /
`newProgram.referencedMap`.  The old changed-files set is copied when the
old state is reusable (line 78); then every file of the new program that
`isFileChanged` flags is added to the changed set, and diagnostics of
unchanged files are copied forward when allowed (lines 84–108).  The
`Debug.assert` sanity checks (lines 70–75) do not change state and are
modelled separately where a claim needs them. -/
def createBuilderProgramState (newProgram : Program)
    (oldState : Option BuilderProgramState) : BuilderProgramState :=
  let bundled := newProgram.outFile || newProgram.out
  let useOldState := canReuseOldState newProgram.referencedMap oldState
  let canCopy := canCopySemanticDiagnostics newProgram oldState
  let changed0 : List Path :=
    if useOldState then
      match oldState with
      | some o => o.changedFilesSet
      | none => []
    else []
  let res := newProgram.files.foldl
    (diffStep useOldState canCopy oldState newProgram) (changed0, [])
  { fileInfos := newProgram.files
    referencedMap := newProgram.referencedMap
    semanticDiagnosticsPerFile := if bundled then none else some res.2
    changedFilesSet := res.1
    affectedFiles := none
    affectedFilesIndex := none
    currentChangedFilePath := none
    currentAffectedFilesSignatures := none
    seenAffectedFiles := none
    program := newProgram }

/-- builder.ts `assertSourceFileOkWithoutNextAffectedCall` (lines 116–118),
as the boolean the `Debug.assert` checks.  JS quirks rendered faithfully:
no source file or no `affectedFiles` passes; `affectedFilesIndex` being
`undefined` or `0` makes `affectedFiles[affectedFilesIndex - 1]` read
`undefined` (index `NaN` / `-1`), which never equals a source file, so the
assertion passes. -/
def assertSourceFileOkWithoutNextAffectedCall (state : BuilderProgramState)
    (sourceFile : Option Path) : Bool :=
  match sourceFile with
  | none => true
  | some f =>
    match state.affectedFiles with
    | none => true
    | some affectedFiles =>
      match state.affectedFilesIndex with
      | none => true
      | some i =>
        if i = 0 then true
        else affectedFiles[i - 1]? != some f || !(diagHas state f)

/-- `BuilderState.updateSignaturesFromCache`.  Modelled from the spec (the
function lives in the absent `builderState.ts`): "flushes pending
signatures" — each pending `(path, signature)` entry overwrites the
signature of that path's `FileInfo`. -/
def updateSignaturesFromCache (fileInfos : List (Path × FileInfo))
    (signatures : List (Path × String)) : List (Path × FileInfo) :=
  signatures.foldl
    (fun fis (e : Path × String) =>
      match lookupA fis e.1 with
      | some info => setA fis e.1 { info with signature := some e.2 }
      | none => fis)
    fileInfos

/-- First not-yet-seen entry of a list, with its index (offset by `j`). -/
def findUnseenAux (seen : List Path) : List Path → Nat → Option (Nat × Path)
  | [], _ => none
  | p :: rest, j =>
    if p ∈ seen then findUnseenAux seen rest (j + 1) else some (j, p)

/-- The inner scan of `getNextAffectedFile` (lines 132–142): starting at
index `i`, find the first affected file not in `seenAffectedFiles`.  (The
`seenAffectedFiles.set` on the skipped branch, line 140, only re-adds keys
that are already present, so the seen set is unchanged by the scan.) -/
def findUnseen (affectedFiles seen : List Path) (i : Nat) : Option (Nat × Path) :=
  findUnseenAux seen (affectedFiles.drop i) i

/-- Result of processing the in-progress batch: either an unseen file was
found and yielded, or the batch was exhausted and drained. -/
inductive ScanResult where
  | found (f : Path) (s : BuilderProgramState)
  | drained (s : BuilderProgramState)
deriving DecidableEq, Repr

/-- Batch completion (lines 144–150): remove `currentChangedFilePath` from
the changed set, commit the pending signatures into `fileInfos`, clear the
pending map, clear `affectedFiles`.  (`delete(undefined)` is a no-op;
`clear()` leaves an empty but present map.) -/
def drainBatch (s : BuilderProgramState) : BuilderProgramState :=
  { s with
    changedFilesSet :=
      match s.currentChangedFilePath with
      | some r => delS s.changedFilesSet r
      | none => s.changedFilesSet
    currentChangedFilePath := none
    fileInfos := updateSignaturesFromCache s.fileInfos (sigsL s)
    currentAffectedFilesSignatures := some []
    affectedFiles := none }

/-- One pass over the in-progress batch (lines 128–151): scan from
`affectedFilesIndex` for an unseen file; if found, record its position,
evict its cached diagnostics and yield it; otherwise drain the batch.
A JS `undefined` index fails the `affectedFilesIndex < affectedFiles.length`
comparison, which behaves like an exhausted scan (`getD files.length`). -/
def scanBatch (s : BuilderProgramState) : ScanResult :=
  match s.affectedFiles with
  | none => ScanResult.drained s
  | some affectedFiles =>
    match findUnseen affectedFiles (seenL s)
        (s.affectedFilesIndex.getD affectedFiles.length) with
    | some (j, affectedFile) =>
      ScanResult.found affectedFile
        { s with
          affectedFilesIndex := some j
          semanticDiagnosticsPerFile :=
            s.semanticDiagnosticsPerFile.map (fun m => delA m affectedFile) }
    | none => ScanResult.drained (drainBatch s)

/-- Starting a new batch (lines 168–174): ensure the pending-signatures and
seen maps exist, compute the affected files of the next changed root
(adding the signatures `getFilesAffectedBy` computes to the pending map),
record the root, evict the root's cached diagnostics, reset the cursor. -/
def installBatch (gfa : GetFilesAffectedBy) (s : BuilderProgramState)
    (root : Path) : BuilderProgramState :=
  let existing := sigsL s
  let r := gfa s.fileInfos s.referencedMap root
  { s with
    currentAffectedFilesSignatures :=
      some (r.2.foldl (fun m (e : Path × String) => setA m e.1 e.2) existing)
    affectedFiles := some r.1
    currentChangedFilePath := some root
    semanticDiagnosticsPerFile :=
      s.semanticDiagnosticsPerFile.map (fun m => delA m root)
    affectedFilesIndex := some 0
    seenAffectedFiles := some (seenL s) }

/-- The root-consuming loop of `getNextAffectedFile` (lines 153–175): take
the first key of `changedFilesSet` (JS `Map` iteration order = insertion
order); if none, iteration is done; in bundled-output mode return the
whole-program sentinel; otherwise install the batch for that root and scan
it, draining and looping if all its files were already seen.  The fuel is
an upper bound on `changedFilesSet.length`; every loop iteration removes
the just-installed root (the head of the set) from the set, so any fuel
`≥ changedFilesSet.length` computes the loop exactly (fuel `0` forces
`changedFilesSet = []`, where returning `(none, s)` is the code's answer). -/
def processRoots (gfa : GetFilesAffectedBy) :
    Nat → BuilderProgramState → Option AffectedUnit × BuilderProgramState
  | 0, s => (none, s)
  | fuel + 1, s =>
    match s.changedFilesSet with
    | [] => (none, s)
    | root :: _ =>
      if s.program.outFile || s.program.out then
        (some AffectedUnit.wholeProgram, s)
      else
        match scanBatch (installBatch gfa s root) with
        | ScanResult.found f s₂ => (some (AffectedUnit.file f), s₂)
        | ScanResult.drained s₂ => processRoots gfa fuel s₂

/-- builder.ts `getNextAffectedFile` (lines 126–176): keep reporting the
next affected file to be processed (or the whole program, or `none` when
iteration is complete), together with the updated state. -/
def getNextAffectedFile (gfa : GetFilesAffectedBy)
    (s : BuilderProgramState) : Option AffectedUnit × BuilderProgramState :=
  match s.affectedFiles with
  | some _ =>
    match scanBatch s with
    | ScanResult.found f s₁ => (some (AffectedUnit.file f), s₁)
    | ScanResult.drained s₁ => processRoots gfa s₁.changedFilesSet.length s₁
  | none => processRoots gfa s.changedFilesSet.length s

/-- builder.ts `doneWithAffectedFile` (lines 182–190): committing the
whole-program sentinel clears the changed set; committing a source file
marks it seen and advances the cursor. -/
def doneWithAffectedFile (s : BuilderProgramState) (affected : AffectedUnit) :
    BuilderProgramState :=
  match affected with
  | AffectedUnit.wholeProgram => { s with changedFilesSet := [] }
  | AffectedUnit.file f =>
    { s with
      seenAffectedFiles := some (addS (seenL s) f)
      affectedFilesIndex := s.affectedFilesIndex.map (fun i => i + 1) }

/-- builder.ts `getSemanticDiagnosticsOfFile` (lines 204–216): return the
cached diagnostics if an entry is present (a JS array, even empty, is
truthy), otherwise query the program and cache the result. -/
def getSemanticDiagnosticsOfFile (s : BuilderProgramState) (sourceFile : Path) :
    List Diag × BuilderProgramState :=
  match diagLookup s sourceFile with
  | some cachedDiagnostics => (cachedDiagnostics, s)
  | none =>
    let diagnostics := s.program.semanticDiagnosticsOf sourceFile
    (diagnostics,
      { s with
        semanticDiagnosticsPerFile :=
          s.semanticDiagnosticsPerFile.map (fun m => setA m sourceFile diagnostics) })

/-- The façade driver loop: call next-affected, commit the yielded unit,
repeat until next-affected signals completion (with fuel to bound the
loop; `none` means the fuel ran out before completion). -/
def driveFuel (gfa : GetFilesAffectedBy) :
    Nat → BuilderProgramState → Option BuilderProgramState
  | 0, _ => none
  | n + 1, s =>
    match getNextAffectedFile gfa s with
    | (none, s') => some s'
    | (some affected, s') => driveFuel gfa n (doneWithAffectedFile s' affected)

/-! ## The cursor-write-back variant of the iterator (claim C9)

The source writes the local scan cursor back to `state.affectedFilesIndex`
only in the branch where an unseen file is found; the variant below also
writes it back (as `affectedFiles.length`) when the scan exhausts the
batch, before draining. -/

/-- `scanBatch` with an unconditional cursor write-back on batch
exhaustion. -/
def scanBatchW (s : BuilderProgramState) : ScanResult :=
  match s.affectedFiles with
  | none => ScanResult.drained s
  | some affectedFiles =>
    match findUnseen affectedFiles (seenL s)
        (s.affectedFilesIndex.getD affectedFiles.length) with
    | some (j, affectedFile) =>
      ScanResult.found affectedFile
        { s with
          affectedFilesIndex := some j
          semanticDiagnosticsPerFile :=
            s.semanticDiagnosticsPerFile.map (fun m => delA m affectedFile) }
    | none =>
      ScanResult.drained
        (drainBatch { s with affectedFilesIndex := some affectedFiles.length })

/-- `processRoots` built on `scanBatchW`. -/
def processRootsW (gfa : GetFilesAffectedBy) :
    Nat → BuilderProgramState → Option AffectedUnit × BuilderProgramState
  | 0, s => (none, s)
  | fuel + 1, s =>
    match s.changedFilesSet with
    | [] => (none, s)
    | root :: _ =>
      if s.program.outFile || s.program.out then
        (some AffectedUnit.wholeProgram, s)
      else
        match scanBatchW (installBatch gfa s root) with
        | ScanResult.found f s₂ => (some (AffectedUnit.file f), s₂)
        | ScanResult.drained s₂ => processRootsW gfa fuel s₂

/-- `getNextAffectedFile` with the unconditional cursor write-back. -/
def getNextAffectedFileW (gfa : GetFilesAffectedBy)
    (s : BuilderProgramState) : Option AffectedUnit × BuilderProgramState :=
  match s.affectedFiles with
  | some _ =>
    match scanBatchW s with
    | ScanResult.found f s₁ => (some (AffectedUnit.file f), s₁)
    | ScanResult.drained s₁ => processRootsW gfa s₁.changedFilesSet.length s₁
  | none => processRootsW gfa s.changedFilesSet.length s

/-- Observational equivalence of builder states: all fields agree except
possibly `affectedFilesIndex`, which must agree whenever a batch is in
progress.  A stale cursor with no batch in progress is unobservable: every
reader of `affectedFilesIndex` either first checks `affectedFiles` or
overwrites the cursor when installing a batch. -/
def obsEq (s t : BuilderProgramState) : Prop :=
  s.fileInfos = t.fileInfos ∧
  s.referencedMap = t.referencedMap ∧
  s.semanticDiagnosticsPerFile = t.semanticDiagnosticsPerFile ∧
  s.changedFilesSet = t.changedFilesSet ∧
  s.affectedFiles = t.affectedFiles ∧
  s.currentChangedFilePath = t.currentChangedFilePath ∧
  s.currentAffectedFilesSignatures = t.currentAffectedFilesSignatures ∧
  s.seenAffectedFiles = t.seenAffectedFiles ∧
  s.program = t.program ∧
  (s.affectedFiles.isSome = true → s.affectedFilesIndex = t.affectedFilesIndex)

/-! ## Reachable builder configurations (claims C3 and C8)

A configuration is a state paired with the pending yielded-but-uncommitted
unit (what the caller holds between next-affected and done-with). -/

/-- The paths of the batch in progress (empty when none). -/
def batchPaths (s : BuilderProgramState) : List Path :=
  s.affectedFiles.getD []

/-- The construction-time `Debug.assert` of builder.ts lines 73–75: when
diagnostics may be copied from the old state, no changed file of the old
state may have a cached diagnostics entry. -/
def oldStateDiagnosticsPure (P : Program) (o : BuilderProgramState) : Prop :=
  canCopySemanticDiagnostics P (some o) = true →
    ∀ q ∈ o.changedFilesSet, diagHas o q = false

/-- One façade-level step on a configuration: a next-affected call, a
done-with commit of the pending unit, a per-file diagnostics query (which
the code documents as only made for files "taken out of affected
files/changed file set": not the pending file, not a changed file), or the
composite next-affected diagnostics operation
(`getSemanticDiagnosticsOfNextAffectedFile`: yield, compute and cache, then
commit). -/
inductive BStep (gfa : GetFilesAffectedBy) :
    BuilderProgramState × Option AffectedUnit →
    BuilderProgramState × Option AffectedUnit → Prop where
  | next (s : BuilderProgramState) (p : Option AffectedUnit)
      (r : Option AffectedUnit) (s' : BuilderProgramState) :
      getNextAffectedFile gfa s = (r, s') → BStep gfa (s, p) (s', r)
  | done (s : BuilderProgramState) (a : AffectedUnit) :
      BStep gfa (s, some a) (doneWithAffectedFile s a, none)
  | query (s : BuilderProgramState) (p : Option AffectedUnit) (f : Path) :
      p ≠ some (AffectedUnit.file f) → f ∉ s.changedFilesSet →
      BStep gfa (s, p) ((getSemanticDiagnosticsOfFile s f).2, p)
  | diagNext (s : BuilderProgramState) (p : Option AffectedUnit) (f : Path)
      (s₁ : BuilderProgramState) :
      getNextAffectedFile gfa s = (some (AffectedUnit.file f), s₁) →
      BStep gfa (s, p)
        (doneWithAffectedFile (getSemanticDiagnosticsOfFile s₁ f).2
          (AffectedUnit.file f), none)

/-- Configurations reachable from a freshly constructed state (either with
no old state, or from an old state with distinct file paths that passes
the construction-time purity assert) by façade steps. -/
inductive ReachB (gfa : GetFilesAffectedBy) :
    BuilderProgramState × Option AffectedUnit → Prop where
  | fresh (P : Program) : ReachB gfa (createBuilderProgramState P none, none)
  | freshOld (P : Program) (o : BuilderProgramState) :
      (P.files.map Prod.fst).Nodup →
      oldStateDiagnosticsPure P o →
      ReachB gfa (createBuilderProgramState P (some o), none)
  | step (c c' : BuilderProgramState × Option AffectedUnit) :
      ReachB gfa c → BStep gfa c c' → ReachB gfa c'

/-- Reachable configurations together with the accumulated paths of every
batch installed so far (claim C8): the `next` steps record the paths of
the batch left in progress. -/
inductive ReachAcc (gfa : GetFilesAffectedBy) :
    BuilderProgramState × Option AffectedUnit → List Path → Prop where
  | fresh (P : Program) : ReachAcc gfa (createBuilderProgramState P none, none) []
  | freshOld (P : Program) (o : BuilderProgramState) :
      ReachAcc gfa (createBuilderProgramState P (some o), none) []
  | next (s : BuilderProgramState) (p : Option AffectedUnit) (acc : List Path)
      (r : Option AffectedUnit) (s' : BuilderProgramState) :
      ReachAcc gfa (s, p) acc → getNextAffectedFile gfa s = (r, s') →
      ReachAcc gfa (s', r) (acc ++ batchPaths s')
  | done (s : BuilderProgramState) (a : AffectedUnit) (acc : List Path) :
      ReachAcc gfa (s, some a) acc →
      ReachAcc gfa (doneWithAffectedFile s a, none) acc
  | query (s : BuilderProgramState) (p : Option AffectedUnit) (f : Path)
      (acc : List Path) :
      ReachAcc gfa (s, p) acc →
      ReachAcc gfa ((getSemanticDiagnosticsOfFile s f).2, p) acc
  | diagNext (s : BuilderProgramState) (p : Option AffectedUnit) (f : Path)
      (s₁ : BuilderProgramState) (acc : List Path) :
      ReachAcc gfa (s, p) acc →
      getNextAffectedFile gfa s = (some (AffectedUnit.file f), s₁) →
      ReachAcc gfa
        (doneWithAffectedFile (getSemanticDiagnosticsOfFile s₁ f).2
          (AffectedUnit.file f), none) (acc ++ batchPaths s₁)

/-- Cache purity of a configuration, as the code maintains it: every cached
path is not the pending yielded-but-uncommitted file, and if it is still in
`changedFilesSet` (a root whose batch is or was in progress) it has already
been processed (it is in `seenAffectedFiles`). -/
def CachePure (c : BuilderProgramState × Option AffectedUnit) : Prop :=
  ∀ p d, diagLookup c.1 p = some d →
    c.2 ≠ some (AffectedUnit.file p) ∧
    (p ∈ c.1.changedFilesSet → p ∈ seenL c.1)

/-- The seen-set bookkeeping invariant (claim C8): everything in
`seenAffectedFiles` comes from some installed batch (it is in the
accumulator), the batch in progress is recorded in the accumulator, and a
pending yielded file is a member of the batch in progress. -/
def SeenInBatches (c : BuilderProgramState × Option AffectedUnit)
    (acc : List Path) : Prop :=
  (∀ q ∈ seenL c.1, q ∈ acc) ∧
  (∀ q ∈ batchPaths c.1, q ∈ acc) ∧
  (∀ f, c.2 = some (AffectedUnit.file f) → f ∈ batchPaths c.1)

/-! ## Concrete example inputs used by witnesses and counterexamples -/

/-- A one-file program (`a`, version `1`, one semantic diagnostic). -/
def exProgram : Program :=
  { pid := 0, outFile := false, out := false
    files := [("a", ⟨"1", none⟩)]
    referencedMap := none
    diags := [("a", ["d"])] }

/-- An affected-files computation: each changed root affects just itself,
with one recomputed signature. -/
def exGfa : GetFilesAffectedBy := fun _ _ root => ([root], [(root, "sig")])

/-- The freshly constructed state for `exProgram` (no old state): its single
file is in `changedFilesSet`, no batch is in progress. -/
def exFresh : BuilderProgramState := createBuilderProgramState exProgram none

/-- The state after the first `getNextAffectedFile` (which installs the
batch `[a]` and yields `a`). -/
def exS1 : BuilderProgramState := (getNextAffectedFile exGfa exFresh).2

/-- The state after driving the iterator of `exFresh` to completion. -/
def exDrained : BuilderProgramState :=
  (driveFuel exGfa 2 exFresh).getD exFresh

/-- A one-file bundled-output program. -/
def exBundled : Program :=
  { pid := 1, outFile := true, out := false
    files := [("a", ⟨"1", none⟩)]
    referencedMap := none
    diags := [] }

/-- Fresh state for the bundled-output program. -/
def exBundledFresh : BuilderProgramState := createBuilderProgramState exBundled none

/-- The state reached from `exFresh` by one composite next-affected
diagnostics operation (yield `a`, compute and cache its diagnostics,
commit): the cached entry for `a` coexists with `a ∈ changedFilesSet`
because the root is only removed when its batch drains. -/
def exC3 : BuilderProgramState :=
  doneWithAffectedFile (getSemanticDiagnosticsOfFile exS1 "a").2
    (AffectedUnit.file "a")

/-- A two-file program (`a` and `c`, unrelated). -/
def exProgram2 : Program :=
  { pid := 2, outFile := false, out := false
    files := [("a", ⟨"1", none⟩), ("c", ⟨"1", none⟩)]
    referencedMap := none
    diags := [] }

/-- Fresh state for `exProgram2`: both files changed. -/
def ex2S0 : BuilderProgramState := createBuilderProgramState exProgram2 none

/-- After yielding `a` (batch `[a]` installed). -/
def ex2S1 : BuilderProgramState := (getNextAffectedFile exGfa ex2S0).2

/-- After committing `a`. -/
def ex2S2 : BuilderProgramState := doneWithAffectedFile ex2S1 (AffectedUnit.file "a")

/-- After the next call: `a`'s batch drained, batch `[c]` installed and `c`
yielded — but `seenAffectedFiles` still contains `a`. -/
def ex2S3 : BuilderProgramState := (getNextAffectedFile exGfa ex2S2).2

/-- The builder façade object, reduced to the state it owns (all its
methods are closures over this state). -/
structure BaseBuilderProgram where
  state : BuilderProgramState
deriving DecidableEq, Repr

/-- builder.ts `createBuilderProgram` (lines 225–273), reduced to its state
management: when the old builder program's state holds the very program
being passed in, the old builder program itself is returned (lines
226–232) — no new state is constructed and the diff engine does not run;
otherwise a new state is built from the new program and the old state. -/
def createBuilderProgram (newProgram : Program)
    (oldProgram : Option BaseBuilderProgram) : BaseBuilderProgram :=
  match oldProgram with
  | some oldP =>
    if newProgram = oldP.state.program then oldP
    else { state := createBuilderProgramState newProgram (some oldP.state) }
  | none => { state := createBuilderProgramState newProgram none }

/-! ## Basic lemmas about the JS `Map` / set model -/

@[simp]
theorem lookupA_nil {α : Type} (k : Path) : lookupA ([] : List (Path × α)) k = none :=
  rfl

theorem lookupA_setA {α : Type} (m : List (Path × α)) (k : Path) (v : α) (p : Path) :
    lookupA (setA m k v) p = if k = p then some v else lookupA m p := by
  induction m with
  | nil => by_cases h : k = p <;> simp [setA, lookupA, h]
  | cons e rest ih =>
    obtain ⟨k', v'⟩ := e
    by_cases hk : k' = k
    · subst hk
      by_cases h : k' = p <;> simp [setA, lookupA, h]
    · by_cases h : k' = p
      · subst h
        have : ¬ k = k' := fun hh => hk hh.symm
        simp [setA, lookupA, hk, this]
      · simp [setA, lookupA, hk, h, ih]

theorem lookupA_delA {α : Type} (m : List (Path × α)) (k p : Path) :
    lookupA (delA m k) p = if k = p then none else lookupA m p := by
  induction m with
  | nil => by_cases h : k = p <;> simp [delA, lookupA, h]
  | cons e rest ih =>
    obtain ⟨k', v'⟩ := e
    by_cases hk : k' = k
    · subst hk
      by_cases h : k' = p
      · subst h
        simpa [delA, List.filter, lookupA] using ih
      · simp only [delA, List.filter] at ih ⊢
        simpa [h, lookupA] using ih
    · by_cases h : k' = p
      · subst h
        have : ¬ k = k' := fun hh => hk hh.symm
        simp [delA, List.filter, lookupA, hk, this]
      · simp only [delA, List.filter] at ih ⊢
        simpa [hk, h, lookupA] using ih

theorem lookupA_delA_self {α : Type} (m : List (Path × α)) (k : Path) :
    lookupA (delA m k) k = none := by
  simp [lookupA_delA]

theorem delA_eq_self {α : Type} (m : List (Path × α)) (k : Path)
    (h : lookupA m k = none) : delA m k = m := by
  induction m with
  | nil => rfl
  | cons e rest ih =>
    obtain ⟨k', v'⟩ := e
    by_cases hk : k' = k
    · subst hk; simp [lookupA] at h
    · simp only [lookupA, hk, if_neg] at h
      simp [delA, List.filter, hk] at ih ⊢
      exact ih h

theorem mem_addS (s : List Path) (k p : Path) :
    p ∈ addS s k ↔ p ∈ s ∨ p = k := by
  by_cases h : k ∈ s
  · constructor
    · intro hp; simp [addS, h] at hp; exact Or.inl hp
    · intro hp
      rcases hp with hp | hp
      · simpa [addS, h] using hp
      · subst hp; simpa [addS, h] using h
  · simp [addS, h, or_comm]

theorem mem_delS (s : List Path) (k p : Path) :
    p ∈ delS s k ↔ p ∈ s ∧ p ≠ k := by
  simp [delS]

theorem delS_length_le (s : List Path) (k : Path) :
    (delS s k).length ≤ s.length :=
  List.length_filter_le _ s

@[simp]
theorem delS_cons_self (t : List Path) (k : Path) :
    delS (k :: t) k = delS t k := by
  simp [delS]

theorem findUnseenAux_sound (seen : List Path) :
    ∀ (l : List Path) (j k : Nat) (f : Path),
      findUnseenAux seen l j = some (k, f) →
      j ≤ k ∧ l[k - j]? = some f ∧ f ∉ seen := by
  intro l
  induction l with
  | nil => intro j k f h; simp [findUnseenAux] at h
  | cons p rest ih =>
    intro j k f h
    by_cases hp : p ∈ seen
    · simp only [findUnseenAux, if_pos hp] at h
      obtain ⟨h1, h2, h3⟩ := ih (j + 1) k f h
      refine ⟨by omega, ?_, h3⟩
      have hk : k - j = (k - (j + 1)) + 1 := by omega
      rw [hk]
      simpa using h2
    · simp only [findUnseenAux, if_neg hp] at h
      obtain ⟨rfl, rfl⟩ : j = k ∧ p = f := by
        constructor <;> [skip; skip] <;> cases h <;> rfl
      simp [hp]

theorem findUnseen_sound (affectedFiles seen : List Path) (i k : Nat) (f : Path)
    (h : findUnseen affectedFiles seen i = some (k, f)) :
    i ≤ k ∧ affectedFiles[k]? = some f ∧ f ∉ seen := by
  obtain ⟨h1, h2, h3⟩ := findUnseenAux_sound seen (affectedFiles.drop i) i k f h
  refine ⟨h1, ?_, h3⟩
  rw [List.getElem?_drop] at h2
  have : i + (k - i) = k := by omega
  rwa [this] at h2

theorem findUnseen_at (affectedFiles seen : List Path) (j : Nat) (f : Path)
    (hget : affectedFiles[j]? = some f) (hf : f ∉ seen) :
    findUnseen affectedFiles seen j = some (j, f) := by
  have hlt : j < affectedFiles.length := by
    by_contra hge
    rw [List.getElem?_eq_none (by omega)] at hget
    exact Option.noConfusion hget
  have hdrop : affectedFiles.drop j = f :: affectedFiles.drop (j + 1) := by
    rw [List.drop_eq_getElem_cons hlt]
    congr 1
    have := List.getElem?_eq_getElem hlt
    rw [this] at hget
    exact Option.some.inj hget
  simp [findUnseen, hdrop, findUnseenAux, hf]

/-! ## Characterization of the iterator's steps -/

theorem scanBatch_found_spec (s : BuilderProgramState) (f : Path)
    (s₁ : BuilderProgramState) (h : scanBatch s = ScanResult.found f s₁) :
    ∃ affectedFiles j,
      s.affectedFiles = some affectedFiles ∧
      findUnseen affectedFiles (seenL s) (s.affectedFilesIndex.getD affectedFiles.length) =
        some (j, f) ∧
      s₁ = { s with
             affectedFilesIndex := some j
             semanticDiagnosticsPerFile :=
               s.semanticDiagnosticsPerFile.map (fun m => delA m f) } := by
  unfold scanBatch at h
  split at h
  · exact absurd h (by simp)
  · rename_i affectedFiles haf
    split at h
    · rename_i jf j f' hfind
      cases h
      exact ⟨affectedFiles, j, haf, hfind, rfl⟩
    · exact absurd h (by simp)

theorem scanBatch_drained_of_some (s : BuilderProgramState)
    (s₁ : BuilderProgramState) (haf : s.affectedFiles.isSome)
    (h : scanBatch s = ScanResult.drained s₁) : s₁ = drainBatch s := by
  unfold scanBatch at h
  split at h
  · rename_i haf'
    rw [haf'] at haf
    exact absurd haf (by simp)
  · rename_i affectedFiles haf'
    split at h
    · exact absurd h (by simp)
    · cases h; rfl

theorem installBatch_diagLookup (gfa : GetFilesAffectedBy)
    (s : BuilderProgramState) (root p : Path) :
    diagLookup (installBatch gfa s root) p =
      if root = p then none else diagLookup s p := by
  cases h : s.semanticDiagnosticsPerFile with
  | none => by_cases hp : root = p <;> simp [installBatch, diagLookup, h, hp]
  | some m => by_cases hp : root = p <;> simp [installBatch, diagLookup, h, hp, lookupA_delA]

theorem scanFound_diagLookup (s : BuilderProgramState) (j : Nat) (f p : Path) :
    diagLookup { s with
                 affectedFilesIndex := some j
                 semanticDiagnosticsPerFile :=
                   s.semanticDiagnosticsPerFile.map (fun m => delA m f) } p =
      if f = p then none else diagLookup s p := by
  cases h : s.semanticDiagnosticsPerFile with
  | none => by_cases hp : f = p <;> simp [diagLookup, h, hp]
  | some m => by_cases hp : f = p <;> simp [diagLookup, h, hp, lookupA_delA]

/-- Everything `getNextAffectedFile` guarantees about a yielded source file:
the final state has an in-progress batch whose cursor points at the yielded
file, the file is not yet seen, and its cached diagnostics are evicted. -/
theorem processRoots_yield (gfa : GetFilesAffectedBy) :
    ∀ (n : Nat) (s : BuilderProgramState) (f : Path) (s' : BuilderProgramState),
      processRoots gfa n s = (some (AffectedUnit.file f), s') →
      ∃ affectedFiles j,
        s'.affectedFiles = some affectedFiles ∧
        s'.affectedFilesIndex = some j ∧
        affectedFiles[j]? = some f ∧ f ∉ seenL s' ∧ diagLookup s' f = none := by
  intro n
  induction n with
  | zero => intro s f s' h; exact absurd h (by simp [processRoots])
  | succ n ih =>
    intro s f s' h
    unfold processRoots at h
    split at h
    · exact absurd h (by simp)
    · rename_i root rest hch
      split at h
      · exact absurd h (by simp)
      · rename_i hb
        split at h
        · rename_i f₂ s₂ hscan
          obtain ⟨rfl, rfl⟩ : f₂ = f ∧ s₂ = s' := by
            constructor <;> cases h <;> rfl
          obtain ⟨affectedFiles, j, haf, hfind, hs⟩ := scanBatch_found_spec _ _ _ hscan
          obtain ⟨_, hget, hseen⟩ := findUnseen_sound _ _ _ _ _ hfind
          subst hs
          refine ⟨affectedFiles, j, haf, rfl, hget, hseen, ?_⟩
          have := scanFound_diagLookup (installBatch gfa s root) j f₂ f₂
          simpa using this
        · rename_i s₂ hscan
          exact ih s₂ f s' h

theorem getNextAffectedFile_yield (gfa : GetFilesAffectedBy)
    (s : BuilderProgramState) (f : Path) (s' : BuilderProgramState)
    (h : getNextAffectedFile gfa s = (some (AffectedUnit.file f), s')) :
    ∃ affectedFiles j,
      s'.affectedFiles = some affectedFiles ∧
      s'.affectedFilesIndex = some j ∧
      affectedFiles[j]? = some f ∧ f ∉ seenL s' ∧ diagLookup s' f = none := by
  unfold getNextAffectedFile at h
  split at h
  · split at h
    · rename_i f₂ s₂ hscan
      obtain ⟨rfl, rfl⟩ : f₂ = f ∧ s₂ = s' := by
        constructor <;> cases h <;> rfl
      obtain ⟨affectedFiles', j, haf', hfind, hs⟩ := scanBatch_found_spec _ _ _ hscan
      obtain ⟨_, hget, hseen⟩ := findUnseen_sound _ _ _ _ _ hfind
      subst hs
      refine ⟨affectedFiles', j, haf', rfl, hget, hseen, ?_⟩
      have := scanFound_diagLookup s j f₂ f₂
      simpa using this
    · rename_i s₂ hscan
      exact processRoots_yield gfa _ s₂ f s' h
  · exact processRoots_yield gfa _ s f s' h

/-! ## Frame and monotonicity facts about the iterator -/

theorem drainBatch_changed_sub (s : BuilderProgramState) (p : Path)
    (h : p ∈ (drainBatch s).changedFilesSet) : p ∈ s.changedFilesSet := by
  unfold drainBatch at h
  cases hc : s.currentChangedFilePath with
  | none => rw [hc] at h; exact h
  | some r =>
    rw [hc] at h
    exact ((mem_delS _ _ _).1 h).1

theorem doneWith_diagLookup (s : BuilderProgramState) (a : AffectedUnit) (p : Path) :
    diagLookup (doneWithAffectedFile s a) p = diagLookup s p := by
  cases a <;> rfl

theorem doneWith_fileInfos (s : BuilderProgramState) (a : AffectedUnit) :
    (doneWithAffectedFile s a).fileInfos = s.fileInfos := by
  cases a <;> rfl

theorem doneWith_sigsL (s : BuilderProgramState) (a : AffectedUnit) :
    sigsL (doneWithAffectedFile s a) = sigsL s := by
  cases a <;> rfl

theorem doneWith_affected (s : BuilderProgramState) (a : AffectedUnit) :
    (doneWithAffectedFile s a).affectedFiles = s.affectedFiles := by
  cases a <;> rfl

theorem getSemanticDiagnosticsOfFile_facts (s : BuilderProgramState) (f : Path) :
    ((getSemanticDiagnosticsOfFile s f).2.changedFilesSet = s.changedFilesSet) ∧
    (seenL (getSemanticDiagnosticsOfFile s f).2 = seenL s) ∧
    ((getSemanticDiagnosticsOfFile s f).2.affectedFiles = s.affectedFiles) ∧
    ((getSemanticDiagnosticsOfFile s f).2.affectedFilesIndex = s.affectedFilesIndex) ∧
    (sigsL (getSemanticDiagnosticsOfFile s f).2 = sigsL s) ∧
    ((getSemanticDiagnosticsOfFile s f).2.fileInfos = s.fileInfos) ∧
    (∀ p d, diagLookup (getSemanticDiagnosticsOfFile s f).2 p = some d →
      p = f ∨ diagLookup s p = some d) := by
  unfold getSemanticDiagnosticsOfFile
  cases hl : diagLookup s f with
  | some cached => exact ⟨rfl, rfl, rfl, rfl, rfl, rfl, fun p d h => Or.inr h⟩
  | none =>
    refine ⟨rfl, rfl, rfl, rfl, rfl, rfl, ?_⟩
    intro p d h
    cases hm : s.semanticDiagnosticsPerFile with
    | none => simp [diagLookup, hm] at h
    | some m =>
      simp only [diagLookup, hm, Option.map_some'] at h
      rw [lookupA_setA] at h
      by_cases hp : f = p
      · exact Or.inl hp.symm
      · rw [if_neg hp] at h
        exact Or.inr (by simp [diagLookup, hm, h])

/-- The per-call facts of the root loop: the diagnostics cache only loses
entries, the changed set only loses members, the seen set's content is
untouched, and the "no batch in progress implies no pending signatures"
condition is preserved. -/
theorem processRoots_facts (gfa : GetFilesAffectedBy) :
    ∀ (n : Nat) (s : BuilderProgramState) (r : Option AffectedUnit)
      (s' : BuilderProgramState),
      processRoots gfa n s = (r, s') →
      (∀ p d, diagLookup s' p = some d → diagLookup s p = some d) ∧
      (∀ p, p ∈ s'.changedFilesSet → p ∈ s.changedFilesSet) ∧
      seenL s' = seenL s ∧
      ((s.affectedFiles = none → sigsL s = []) →
        s'.affectedFiles = none → sigsL s' = []) := by
  intro n
  induction n with
  | zero =>
    intro s r s' h
    simp only [processRoots] at h
    cases h
    exact ⟨fun p d hd => hd, fun p hp => hp, rfl, fun hk => hk⟩
  | succ n ih =>
    intro s r s' h
    unfold processRoots at h
    split at h
    · cases h; exact ⟨fun p d hd => hd, fun p hp => hp, rfl, fun hk => hk⟩
    · rename_i root rest hch
      split at h
      · cases h; exact ⟨fun p d hd => hd, fun p hp => hp, rfl, fun hk => hk⟩
      · rename_i hb
        split at h
        · rename_i f₂ s₂ hscan
          obtain ⟨rfl, rfl⟩ : some (AffectedUnit.file f₂) = r ∧ s₂ = s' := by
            constructor <;> cases h <;> rfl
          obtain ⟨affectedFiles, j, haf, hfind, hs⟩ := scanBatch_found_spec _ _ _ hscan
          subst hs
          refine ⟨?_, ?_, ?_, ?_⟩
          · intro p d hd
            rw [scanFound_diagLookup] at hd
            split at hd
            · exact absurd hd (by simp)
            · rw [installBatch_diagLookup] at hd
              split at hd
              · exact absurd hd (by simp)
              · exact hd
          · intro p hp; exact hp
          · rfl
          · intro hk haff
            exact absurd haff (by simp [installBatch])
        · rename_i s₂ hscan
          have hs₂ : s₂ = drainBatch (installBatch gfa s root) :=
            scanBatch_drained_of_some _ _ (by simp [installBatch]) hscan
          obtain ⟨ih1, ih2, ih3, ih4⟩ := ih s₂ r s' h
          subst hs₂
          refine ⟨?_, ?_, ?_, ?_⟩
          · intro p d hd
            have := ih1 p d hd
            rw [show diagLookup (drainBatch (installBatch gfa s root)) p
                  = diagLookup (installBatch gfa s root) p from rfl,
                installBatch_diagLookup] at this
            split at this
            · exact absurd this (by simp)
            · exact this
          · intro p hp
            have := ih2 p hp
            have h2 := drainBatch_changed_sub _ _ this
            simpa [installBatch] using h2
          · rw [ih3]; rfl
          · intro hk
            exact ih4 (fun _ => rfl)

theorem getNextAffectedFile_facts (gfa : GetFilesAffectedBy)
    (s : BuilderProgramState) (r : Option AffectedUnit) (s' : BuilderProgramState)
    (h : getNextAffectedFile gfa s = (r, s')) :
    (∀ p d, diagLookup s' p = some d → diagLookup s p = some d) ∧
    (∀ p, p ∈ s'.changedFilesSet → p ∈ s.changedFilesSet) ∧
    seenL s' = seenL s ∧
    ((s.affectedFiles = none → sigsL s = []) →
      s'.affectedFiles = none → sigsL s' = []) := by
  unfold getNextAffectedFile at h
  split at h
  · rename_i haf
    split at h
    · rename_i f₂ s₂ hscan
      obtain ⟨rfl, rfl⟩ : some (AffectedUnit.file f₂) = r ∧ s₂ = s' := by
        constructor <;> cases h <;> rfl
      obtain ⟨affectedFiles, j, haf', hfind, hs⟩ := scanBatch_found_spec _ _ _ hscan
      subst hs
      refine ⟨?_, fun p hp => hp, rfl, ?_⟩
      · intro p d hd
        rw [scanFound_diagLookup] at hd
        split at hd
        · exact absurd hd (by simp)
        · exact hd
      · intro hk haff
        have haffs : s.affectedFiles = none := haff
        rw [haf] at haffs
        exact absurd haffs (by simp)
    · rename_i s₂ hscan
      have hs₂ : s₂ = drainBatch s :=
        scanBatch_drained_of_some _ _ (by rw [haf]; rfl) hscan
      obtain ⟨ih1, ih2, ih3, ih4⟩ := processRoots_facts gfa _ s₂ r s' h
      subst hs₂
      refine ⟨fun p d hd => ih1 p d hd, ?_, ih3.trans rfl, ?_⟩
      · intro p hp
        exact drainBatch_changed_sub _ _ (ih2 p hp)
      · intro hk
        exact ih4 (fun _ => rfl)
  · exact processRoots_facts gfa _ s r s' h

/-- A `none` result means iteration is complete: the changed set is empty
and no batch is in progress. -/
theorem processRoots_none (gfa : GetFilesAffectedBy) :
    ∀ (n : Nat) (s : BuilderProgramState) (s' : BuilderProgramState),
      s.changedFilesSet.length ≤ n →
      s.affectedFiles = none →
      processRoots gfa n s = (none, s') →
      s'.changedFilesSet = [] ∧ s'.affectedFiles = none := by
  intro n
  induction n with
  | zero =>
    intro s s' hlen haff h
    simp only [processRoots] at h
    cases h
    have : s.changedFilesSet = [] := List.length_eq_zero.1 (Nat.le_zero.1 hlen)
    exact ⟨this, haff⟩
  | succ n ih =>
    intro s s' hlen haff h
    unfold processRoots at h
    split at h
    · rename_i hch
      cases h
      exact ⟨hch, haff⟩
    · rename_i root rest hch
      split at h
      · exact absurd h (by simp)
      · rename_i hb
        split at h
        · exact absurd h (by simp)
        · rename_i s₂ hscan
          have hs₂ : s₂ = drainBatch (installBatch gfa s root) :=
            scanBatch_drained_of_some _ _ (by simp [installBatch]) hscan
          refine ih s₂ s' ?_ (by rw [hs₂]; rfl) h
          have hc₂ : s₂.changedFilesSet = delS rest root := by
            rw [hs₂]
            show (match (installBatch gfa s root).currentChangedFilePath with
                  | some r => delS (installBatch gfa s root).changedFilesSet r
                  | none => (installBatch gfa s root).changedFilesSet) = delS rest root
            show delS s.changedFilesSet root = delS rest root
            rw [hch]
            exact delS_cons_self rest root
          rw [hc₂]
          have := delS_length_le rest root
          have hlen' : rest.length + 1 ≤ n + 1 := by
            rw [hch] at hlen; simpa using hlen
          omega

theorem getNextAffectedFile_none (gfa : GetFilesAffectedBy)
    (s : BuilderProgramState) (s' : BuilderProgramState)
    (h : getNextAffectedFile gfa s = (none, s')) :
    s'.changedFilesSet = [] ∧ s'.affectedFiles = none := by
  unfold getNextAffectedFile at h
  split at h
  · rename_i haf
    split at h
    · exact absurd h (by simp)
    · rename_i s₂ hscan
      have hs₂ : s₂ = drainBatch s :=
        scanBatch_drained_of_some _ _ (by rw [haf]; rfl) hscan
      exact processRoots_none gfa _ s₂ s' (le_refl _) (by rw [hs₂]; rfl) h
  · rename_i haf
    exact processRoots_none gfa _ s s' (le_refl _) haf h

/-! ## Claim C10 -/

/-- C10: when the old builder program's state holds the very program passed
as the new program, `createBuilderProgram` returns the old builder program
itself — no new state is constructed, the diff engine does not run, and
(the embedding being pure) the old state is untouched. -/
theorem c10_sameProgramReuse (newProgram : Program) (oldP : BaseBuilderProgram)
    (h : oldP.state.program = newProgram) :
    createBuilderProgram newProgram (some oldP) = oldP := by
  have hdef : createBuilderProgram newProgram (some oldP) =
      if newProgram = oldP.state.program then oldP
      else { state := createBuilderProgramState newProgram (some oldP.state) } := rfl
  rw [hdef, if_pos h.symm]

/-- Witness for C10 at a concrete builder program. -/
theorem c10_sameProgramReuse_witness :
    ({ state := exFresh } : BaseBuilderProgram).state.program = exProgram ∧
    createBuilderProgram exProgram (some { state := exFresh }) =
      ({ state := exFresh } : BaseBuilderProgram) :=
  ⟨by decide, c10_sameProgramReuse exProgram { state := exFresh } (by decide)⟩

/-! ## Claim C5 -/

/-- C5: in bundled-output mode (with no batch in progress, which is the
only shape bundled-mode states take — one is never installed),
next-affected returns the whole-program sentinel exactly when
`changedFilesSet` is non-empty, returns `none` (leaving the state
untouched) when it is empty, and done-with on the sentinel empties
`changedFilesSet`. -/
theorem c5_wholeProgramCollapse (gfa : GetFilesAffectedBy)
    (s : BuilderProgramState)
    (hb : (s.program.outFile || s.program.out) = true)
    (haf : s.affectedFiles = none) :
    (s.changedFilesSet = [] → getNextAffectedFile gfa s = (none, s)) ∧
    (s.changedFilesSet ≠ [] →
      getNextAffectedFile gfa s = (some AffectedUnit.wholeProgram, s)) ∧
    (doneWithAffectedFile s AffectedUnit.wholeProgram).changedFilesSet = [] := by
  refine ⟨?_, ?_, rfl⟩
  · intro hch
    simp [getNextAffectedFile, haf, hch, processRoots]
  · intro hch
    cases hcs : s.changedFilesSet with
    | nil => exact absurd hcs hch
    | cons root rest =>
      simp [getNextAffectedFile, haf, hcs, processRoots, hb]

/-- Witness for C5 at the concrete bundled-output state. -/
theorem c5_wholeProgramCollapse_witness :
    (exBundledFresh.changedFilesSet = [] →
      getNextAffectedFile exGfa exBundledFresh = (none, exBundledFresh)) ∧
    (exBundledFresh.changedFilesSet ≠ [] →
      getNextAffectedFile exGfa exBundledFresh =
        (some AffectedUnit.wholeProgram, exBundledFresh)) ∧
    (doneWithAffectedFile exBundledFresh AffectedUnit.wholeProgram).changedFilesSet
      = [] :=
  c5_wholeProgramCollapse exGfa exBundledFresh (by decide) (by decide)

/-! ## Claim C6 -/

/-- C6: a mid-batch yield leaves `fileInfos` (and the pending signature
map) untouched, done-with never touches `fileInfos`, and pending
signatures reach `fileInfos` only at the drain boundary, where the pending
map is flushed by `updateSignaturesFromCache` and cleared — so until a
batch fully drains, every signature read from `fileInfos` sees the
pre-batch value. -/
theorem c6_commitOrdering (gfa : GetFilesAffectedBy) (s : BuilderProgramState)
    (f : Path) (s₁ : BuilderProgramState)
    (hscan : scanBatch s = ScanResult.found f s₁) :
    getNextAffectedFile gfa s = (some (AffectedUnit.file f), s₁) ∧
    s₁.fileInfos = s.fileInfos ∧
    s₁.currentAffectedFilesSignatures = s.currentAffectedFilesSignatures ∧
    (∀ a, (doneWithAffectedFile s₁ a).fileInfos = s₁.fileInfos) ∧
    (∀ t t₁, scanBatch t = ScanResult.drained t₁ → t.affectedFiles.isSome = true →
      t₁.fileInfos = updateSignaturesFromCache t.fileInfos (sigsL t) ∧
      sigsL t₁ = []) := by
  obtain ⟨affectedFiles, j, haf, hfind, hs⟩ := scanBatch_found_spec _ _ _ hscan
  refine ⟨?_, ?_, ?_, ?_, ?_⟩
  · simp [getNextAffectedFile, haf, hscan]
  · rw [hs]
  · rw [hs]
  · intro a; exact doneWith_fileInfos _ a
  · intro t t₁ hd ht
    have := scanBatch_drained_of_some t t₁ ht hd
    subst this
    exact ⟨rfl, rfl⟩

/-- Witness for C6 at the concrete yielded state (`exS1` has batch `[a]`
with cursor `0` and `a` unseen, so the scan yields `a` again). -/
theorem c6_commitOrdering_witness :
    getNextAffectedFile exGfa exS1 = (some (AffectedUnit.file "a"), exS1) ∧
    exS1.fileInfos = exS1.fileInfos ∧
    exS1.currentAffectedFilesSignatures = exS1.currentAffectedFilesSignatures ∧
    (∀ a, (doneWithAffectedFile exS1 a).fileInfos = exS1.fileInfos) ∧
    (∀ t t₁, scanBatch t = ScanResult.drained t₁ → t.affectedFiles.isSome = true →
      t₁.fileInfos = updateSignaturesFromCache t.fileInfos (sigsL t) ∧
      sigsL t₁ = []) :=
  c6_commitOrdering exGfa exS1 "a" exS1 (by decide)

/-! ## Claim C7 -/

/-- C7 counterexample: the claim says the assertion fails when the given
file is the most recently yielded but not yet committed affected file.
Concretely, `exS1` is the state right after `getNextAffectedFile` yielded
`a` (no done-with yet), so `a` is exactly that uncommitted file — and the
assertion passes (it checks position `affectedFilesIndex - 1`, not the
yielded position `affectedFilesIndex`). -/
theorem c7_counterexample :
    getNextAffectedFile exGfa exFresh = (some (AffectedUnit.file "a"), exS1) ∧
    assertSourceFileOkWithoutNextAffectedCall exS1 (some "a") = true := by
  constructor <;> decide

/-- C7 amended: the assertion fails exactly when a batch is in progress,
the given file sits at position `affectedFilesIndex - 1` of
`affectedFiles` (with `affectedFilesIndex ≥ 1`), and the file still has a
cached entry in `semanticDiagnosticsPerFile`; it passes in every other
situation. -/
theorem c7_assertCharacterization (s : BuilderProgramState) (f : Path) :
    assertSourceFileOkWithoutNextAffectedCall s (some f) = false ↔
      ∃ affectedFiles i, s.affectedFiles = some affectedFiles ∧
        s.affectedFilesIndex = some i ∧ 1 ≤ i ∧
        affectedFiles[i - 1]? = some f ∧ diagHas s f = true := by
  cases haf : s.affectedFiles with
  | none =>
    have hL : assertSourceFileOkWithoutNextAffectedCall s (some f) = true := by
      unfold assertSourceFileOkWithoutNextAffectedCall
      rw [haf]
    simp [hL, haf]
  | some affectedFiles =>
    cases hidx : s.affectedFilesIndex with
    | none =>
      have hL : assertSourceFileOkWithoutNextAffectedCall s (some f) = true := by
        unfold assertSourceFileOkWithoutNextAffectedCall
        rw [haf, hidx]
      simp [hL, haf, hidx]
    | some i =>
      have hL : assertSourceFileOkWithoutNextAffectedCall s (some f) =
          if i = 0 then true
          else affectedFiles[i - 1]? != some f || !(diagHas s f) := by
        unfold assertSourceFileOkWithoutNextAffectedCall
        rw [haf, hidx]
      rw [hL]
      by_cases hi : i = 0
      · subst hi
        simp [haf, hidx]
      · rw [if_neg hi]
        constructor
        · intro h
          obtain ⟨ha, hb⟩ := Bool.or_eq_false_iff.1 h
          refine ⟨affectedFiles, i, rfl, rfl, by omega,
            by simpa using ha, by simpa using hb⟩
        · rintro ⟨af', i', h1, h2, h3, h4, h5⟩
          obtain rfl : affectedFiles = af' := by injection h1
          obtain rfl : i = i' := by injection h2
          simp [h4, h5]

/-! ## Claim C1 -/

/-- C1 counterexample: the first next-affected call from the fresh state
`exFresh` yields `a`, but the resulting state `exS1` is not `exFresh` with
just `a`'s diagnostics entry evicted — the call also installed the batch
(`affectedFiles`, cursor, current root, pending signatures, seen map), so
the claim's "only difference is that `semanticDiagnosticsPerFile` no
longer contains `f`" is false. -/
theorem c1_counterexample :
    getNextAffectedFile exGfa exFresh = (some (AffectedUnit.file "a"), exS1) ∧
    ¬ (exS1 = { exFresh with
                semanticDiagnosticsPerFile :=
                  exFresh.semanticDiagnosticsPerFile.map (fun m => delA m "a") }) := by
  constructor <;> decide

/-- C1 amended: whenever next-affected yields a source file `f`, the state
after the call has no cached diagnostics for `f`, and calling next-affected
again (without done-with) yields the same `f` and leaves the state exactly
as it was after the first call (the second call changes nothing at all);
the claim's further assertion — that the first call's state differs from
the state before it only by the eviction of `f` — is dropped, since the
first call may also drain a finished batch and install a new one. -/
theorem c1_cancellationIdempotence (gfa : GetFilesAffectedBy)
    (s : BuilderProgramState) (f : Path) (s₁ : BuilderProgramState)
    (h : getNextAffectedFile gfa s = (some (AffectedUnit.file f), s₁)) :
    getNextAffectedFile gfa s₁ = (some (AffectedUnit.file f), s₁) ∧
    diagLookup s₁ f = none := by
  obtain ⟨affectedFiles, j, haf, hidx, hget, hseen, hdiag⟩ :=
    getNextAffectedFile_yield gfa s f s₁ h
  have hdiagm : s₁.semanticDiagnosticsPerFile.map (fun m => delA m f)
      = s₁.semanticDiagnosticsPerFile := by
    cases hm : s₁.semanticDiagnosticsPerFile with
    | none => rfl
    | some m =>
      have : lookupA m f = none := by
        rw [diagLookup, hm] at hdiag
        exact hdiag
      simp [delA_eq_self m f this]
  have hfind : findUnseen affectedFiles (seenL s₁) j = some (j, f) :=
    findUnseen_at affectedFiles (seenL s₁) j f hget hseen
  have hstate : { s₁ with
                  affectedFilesIndex := some j
                  semanticDiagnosticsPerFile :=
                    s₁.semanticDiagnosticsPerFile.map (fun m => delA m f) } = s₁ := by
    rw [hdiagm, ← hidx]
  refine ⟨?_, hdiag⟩
  have hscan : scanBatch s₁ = ScanResult.found f s₁ := by
    have h1 : scanBatch s₁ =
        match findUnseen affectedFiles (seenL s₁)
            ((some j).getD affectedFiles.length) with
        | some (j', f') =>
          ScanResult.found f'
            { s₁ with
              affectedFilesIndex := some j'
              semanticDiagnosticsPerFile :=
                s₁.semanticDiagnosticsPerFile.map (fun m => delA m f') }
        | none => ScanResult.drained (drainBatch s₁) := by
      unfold scanBatch
      rw [haf, hidx]
    rw [h1, Option.getD_some, hfind]
    show ScanResult.found f
        { s₁ with
          affectedFilesIndex := some j
          semanticDiagnosticsPerFile :=
            s₁.semanticDiagnosticsPerFile.map (fun m => delA m f) } =
      ScanResult.found f s₁
    rw [hstate]
  simp [getNextAffectedFile, haf, hscan]

/-- Witness for C1's amended theorem at the concrete first yield. -/
theorem c1_cancellationIdempotence_witness :
    getNextAffectedFile exGfa exS1 = (some (AffectedUnit.file "a"), exS1) ∧
    diagLookup exS1 "a" = none :=
  c1_cancellationIdempotence exGfa exFresh "a" exS1 (by decide)

/-! ## Claim C4 -/

/-- The `K` condition: no batch in progress implies no pending signatures.
It holds of freshly constructed states and is preserved by every step. -/
theorem driveFuel_exhaustion (gfa : GetFilesAffectedBy) :
    ∀ (n : Nat) (s sf : BuilderProgramState),
      (s.affectedFiles = none → sigsL s = []) →
      driveFuel gfa n s = some sf →
      sf.changedFilesSet = [] ∧ sf.affectedFiles = none ∧ sigsL sf = [] := by
  intro n
  induction n with
  | zero => intro s sf hk h; exact absurd h (by simp [driveFuel])
  | succ n ih =>
    intro s sf hk h
    unfold driveFuel at h
    cases hnext : getNextAffectedFile gfa s with
    | mk r s' =>
      rw [hnext] at h
      cases r with
      | none =>
        cases h
        obtain ⟨h1, h2⟩ := getNextAffectedFile_none gfa s sf hnext
        obtain ⟨_, _, _, h4⟩ := getNextAffectedFile_facts gfa s none sf hnext
        exact ⟨h1, h2, h4 hk h2⟩
      | some affected =>
        refine ih (doneWithAffectedFile s' affected) sf ?_ h
        intro haff
        obtain ⟨_, _, _, h4⟩ := getNextAffectedFile_facts gfa s _ s' hnext
        rw [doneWith_affected] at haff
        rw [doneWith_sigsL]
        exact h4 hk haff

/-- C4: starting from any freshly constructed state, once the
next-affected/done-with loop reaches a `none` answer, the final state has
an empty `changedFilesSet`, no `affectedFiles`, and an empty pending
signature map. -/
theorem c4_exhaustion (gfa : GetFilesAffectedBy) (P : Program)
    (old : Option BuilderProgramState) (n : Nat) (sf : BuilderProgramState)
    (h : driveFuel gfa n (createBuilderProgramState P old) = some sf) :
    sf.changedFilesSet = [] ∧ sf.affectedFiles = none ∧ sigsL sf = [] :=
  driveFuel_exhaustion gfa n (createBuilderProgramState P old) sf
    (fun _ => rfl) h

/-- Witness for C4: the loop on `exFresh` terminates within fuel 2 and the
final state satisfies all three exhaustion facts. -/
theorem c4_exhaustion_witness :
    driveFuel exGfa 2 (createBuilderProgramState exProgram none) = some exDrained ∧
    (exDrained.changedFilesSet = [] ∧ exDrained.affectedFiles = none ∧
      sigsL exDrained = []) :=
  ⟨by decide, c4_exhaustion exGfa exProgram none 2 exDrained (by decide)⟩

/-! ## Claim C2 -/

theorem diffStep_fst (u cc : Bool) (old : Option BuilderProgramState)
    (P : Program) (acc : List Path × List (Path × List Diag))
    (e : Path × FileInfo) :
    (diffStep u cc old P acc e).1 =
      if isFileChanged u old P e.1 e.2 then addS acc.1 e.1 else acc.1 := by
  by_cases h : isFileChanged u old P e.1 e.2
  · simp [diffStep, h]
  · simp only [diffStep, h, if_false, Bool.false_eq_true, if_neg]
    by_cases hcc : cc = true
    · simp only [hcc, if_true]
      cases old with
      | none => rfl
      | some o =>
        cases hx : (match o.semanticDiagnosticsPerFile with
                    | some m => lookupA m e.1
                    | none => none) with
        | none => simp [hx]
        | some d => simp [hx]
    · simp [hcc]

theorem foldl_diffStep_mem (u cc : Bool) (old : Option BuilderProgramState)
    (P : Program) :
    ∀ (files : List (Path × FileInfo)) (acc : List Path × List (Path × List Diag))
      (p : Path),
      p ∈ (files.foldl (diffStep u cc old P) acc).1 ↔
        p ∈ acc.1 ∨
          ∃ info, (p, info) ∈ files ∧ isFileChanged u old P p info = true := by
  intro files
  induction files with
  | nil => intro acc p; simp
  | cons e rest ih =>
    intro acc p
    obtain ⟨q, info⟩ := e
    rw [List.foldl_cons, ih]
    by_cases hch : isFileChanged u old P q info = true
    · have h1 : (diffStep u cc old P acc (q, info)).1 = addS acc.1 q := by
        rw [diffStep_fst, if_pos hch]
      rw [h1, mem_addS]
      constructor
      · rintro ((hin | rfl) | ⟨info', hmem, hc⟩)
        · exact Or.inl hin
        · exact Or.inr ⟨info, List.mem_cons_self _ _, hch⟩
        · exact Or.inr ⟨info', List.mem_cons_of_mem _ hmem, hc⟩
      · rintro (hin | ⟨info', hmem, hc⟩)
        · exact Or.inl (Or.inl hin)
        · rcases List.mem_cons.1 hmem with heq | hmem'
          · obtain ⟨rfl, rfl⟩ : p = q ∧ info' = info := by
              constructor <;> cases heq <;> rfl
            exact Or.inl (Or.inr rfl)
          · exact Or.inr ⟨info', hmem', hc⟩
    · have h1 : (diffStep u cc old P acc (q, info)).1 = acc.1 := by
        rw [diffStep_fst, if_neg hch]
      rw [h1]
      constructor
      · rintro (hin | ⟨info', hmem, hc⟩)
        · exact Or.inl hin
        · exact Or.inr ⟨info', List.mem_cons_of_mem _ hmem, hc⟩
      · rintro (hin | ⟨info', hmem, hc⟩)
        · exact Or.inl hin
        · rcases List.mem_cons.1 hmem with heq | hmem'
          · obtain ⟨rfl, rfl⟩ : p = q ∧ info' = info := by
              constructor <;> cases heq <;> rfl
            exact absurd hc hch
          · exact Or.inr ⟨info', hmem', hc⟩

/-- The per-file changed test, spelled out as the spec states it: not
reusable, file absent from the old `fileInfos`, version mismatch,
reference-set key mismatch, or a referenced file deleted from the new
program. -/
theorem isFileChanged_iff (o : BuilderProgramState) (P : Program) (p : Path)
    (info : FileInfo) :
    isFileChanged (canReuseOldState P.referencedMap (some o)) (some o) P p info
        = true ↔
      canReuseOldState P.referencedMap (some o) = false ∨
      lookupA o.fileInfos p = none ∨
      (∃ oldInfo, lookupA o.fileInfos p = some oldInfo ∧
        oldInfo.version ≠ info.version) ∨
      hasSameKeys (P.referencedMap.bind fun m => lookupA m p)
        (o.referencedMap.bind fun m => lookupA m p) = false ∨
      (∃ refs, (P.referencedMap.bind fun m => lookupA m p) = some refs ∧
        ∃ q ∈ refs, lookupA P.files q = none ∧
          (lookupA o.fileInfos q).isSome = true) := by
  cases hre : canReuseOldState P.referencedMap (some o) with
  | false => simp [isFileChanged]
  | true =>
    simp only [isFileChanged, Bool.not_true, Bool.false_or]
    cases hl : lookupA o.fileInfos p with
    | none => simp [hl]
    | some oldInfo =>
      simp only [hl, Bool.or_eq_true, bne_iff_ne, ne_eq, Bool.not_eq_true',
        Option.some.injEq, reduceCtorEq, false_or]
      constructor
      · rintro (hv | hk | hd)
        · exact Or.inl ⟨oldInfo, rfl, hv⟩
        · exact Or.inr (Or.inl hk)
        · refine Or.inr (Or.inr ?_)
          cases hnr : (P.referencedMap.bind fun m => lookupA m p) with
          | none => rw [hnr] at hd; exact absurd hd (by simp)
          | some refs =>
            rw [hnr] at hd
            simp only [List.any_eq_true, Bool.and_eq_true, Bool.not_eq_true'] at hd
            obtain ⟨q, hq, hq1, hq2⟩ := hd
            refine ⟨refs, rfl, q, hq, ?_, hq2⟩
            simpa [hasA, Option.isNone_iff_eq_none] using hq1
      · rintro (⟨oldInfo', heq, hv⟩ | hk | ⟨refs, hnr, q, hq, hq1, hq2⟩)
        · obtain rfl : oldInfo = oldInfo' := heq
          exact Or.inl hv
        · exact Or.inr (Or.inl hk)
        · refine Or.inr (Or.inr ?_)
          rw [hnr]
          simp only [List.any_eq_true, Bool.and_eq_true, Bool.not_eq_true']
          exact ⟨q, hq, by simpa [hasA, Option.isNone_iff_eq_none] using hq1, hq2⟩

/-- C2 counterexample: construct a state for `exProgram` from the reusable
old state `exFresh` (same program, so no file satisfies any of the claim's
five conditions), yet `a` is in the new `changedFilesSet` — it was copied
from the old state's `changedFilesSet` (builder.ts line 78), a case the
claim's "exactly when" omits. -/
theorem c2_counterexample :
    ¬ (("a" ∈ (createBuilderProgramState exProgram (some exFresh)).changedFilesSet) ↔
       (canReuseOldState exProgram.referencedMap (some exFresh) = false ∨
        lookupA exFresh.fileInfos "a" = none ∨
        (lookupA exFresh.fileInfos "a").map FileInfo.version ≠
          (lookupA exProgram.files "a").map FileInfo.version ∨
        hasSameKeys (exProgram.referencedMap.bind fun m => lookupA m "a")
          (exFresh.referencedMap.bind fun m => lookupA m "a") = false ∨
        (∃ q ∈ ((exProgram.referencedMap.bind fun m => lookupA m "a").getD []),
          lookupA exProgram.files q = none ∧
            (lookupA exFresh.fileInfos q).isSome = true))) := by
  decide

/-- C2 amended: a path is in the new state's `changedFilesSet` exactly when
it was copied from the (reusable) old state's `changedFilesSet`, or it is a
file of the new program satisfying one of the claim's conditions: the old
state is not reusable, the path is absent from the old `fileInfos`, its
version differs, its reference sets differ in key membership, or some path
it references in the new program exists in the old `fileInfos` but not in
the new ones. -/
theorem c2_diffCompleteness (P : Program) (o : BuilderProgramState) (p : Path) :
    p ∈ (createBuilderProgramState P (some o)).changedFilesSet ↔
      (canReuseOldState P.referencedMap (some o) = true ∧
        p ∈ o.changedFilesSet) ∨
      (∃ info, (p, info) ∈ P.files ∧
        (canReuseOldState P.referencedMap (some o) = false ∨
         lookupA o.fileInfos p = none ∨
         (∃ oldInfo, lookupA o.fileInfos p = some oldInfo ∧
           oldInfo.version ≠ info.version) ∨
         hasSameKeys (P.referencedMap.bind fun m => lookupA m p)
           (o.referencedMap.bind fun m => lookupA m p) = false ∨
         (∃ refs, (P.referencedMap.bind fun m => lookupA m p) = some refs ∧
           ∃ q ∈ refs, lookupA P.files q = none ∧
             (lookupA o.fileInfos q).isSome = true))) := by
  have hfold : (createBuilderProgramState P (some o)).changedFilesSet =
      (P.files.foldl
        (diffStep (canReuseOldState P.referencedMap (some o))
          (canCopySemanticDiagnostics P (some o)) (some o) P)
        ((if canReuseOldState P.referencedMap (some o) then o.changedFilesSet
          else []), [])).1 := rfl
  rw [hfold, foldl_diffStep_mem]
  constructor
  · rintro (h0 | ⟨info, hmem, hch⟩)
    · cases hre : canReuseOldState P.referencedMap (some o) with
      | false => rw [hre] at h0; simp at h0
      | true => rw [hre] at h0; simp at h0; exact Or.inl ⟨rfl, h0⟩
    · exact Or.inr ⟨info, hmem, (isFileChanged_iff o P p info).1 hch⟩
  · rintro (⟨hre, h0⟩ | ⟨info, hmem, hcond⟩)
    · rw [hre]
      exact Or.inl (by simpa using h0)
    · exact Or.inr ⟨info, hmem, (isFileChanged_iff o P p info).2 hcond⟩

/-! ## Claim C9: cursor write-back equivalence -/

theorem obsEq_refl (s : BuilderProgramState) : obsEq s s :=
  ⟨rfl, rfl, rfl, rfl, rfl, rfl, rfl, rfl, rfl, fun _ => rfl⟩

theorem obsEq_eq_of_isSome (s t : BuilderProgramState) (h : obsEq s t)
    (haf : s.affectedFiles.isSome = true) : s = t := by
  obtain ⟨h1, h2, h3, h4, h5, h6, h7, h8, h9, h10⟩ := h
  have h11 := h10 haf
  cases s
  cases t
  simp only at h1 h2 h3 h4 h5 h6 h7 h8 h9 h11
  subst h1 h2 h3 h4 h5 h6 h7 h8 h9 h11
  rfl

theorem seenL_congr (s t : BuilderProgramState)
    (h : s.seenAffectedFiles = t.seenAffectedFiles) : seenL s = seenL t := by
  unfold seenL
  rw [h]

theorem sigsL_congr (s t : BuilderProgramState)
    (h : s.currentAffectedFilesSignatures = t.currentAffectedFilesSignatures) :
    sigsL s = sigsL t := by
  unfold sigsL
  rw [h]

theorem diagLookup_congr (s t : BuilderProgramState)
    (h : s.semanticDiagnosticsPerFile = t.semanticDiagnosticsPerFile) (p : Path) :
    diagLookup s p = diagLookup t p := by
  unfold diagLookup
  rw [h]

theorem installBatch_congr (gfa : GetFilesAffectedBy)
    (s t : BuilderProgramState) (h : obsEq s t) (root : Path) :
    installBatch gfa s root = installBatch gfa t root := by
  obtain ⟨h1, h2, h3, h4, h5, h6, h7, h8, h9, h10⟩ := h
  unfold installBatch
  rw [sigsL_congr s t h7, seenL_congr s t h8, h1, h2, h3, h4, h9]

/-- The drain result is observationally independent of the cursor. -/
theorem drainBatch_obsEq_setIndex (s : BuilderProgramState) (n : Nat) :
    obsEq (drainBatch s) (drainBatch { s with affectedFilesIndex := some n }) := by
  refine ⟨rfl, rfl, rfl, rfl, rfl, rfl, rfl, rfl, rfl, ?_⟩
  intro hx
  exact absurd hx (by simp [drainBatch])

/-! ### Compute lemmas (reduction of the iterator under known scrutinees) -/

theorem scanBatch_eq_some (s : BuilderProgramState) (affectedFiles : List Path)
    (haf : s.affectedFiles = some affectedFiles) :
    scanBatch s =
      match findUnseen affectedFiles (seenL s)
          (s.affectedFilesIndex.getD affectedFiles.length) with
      | some (j, affectedFile) =>
        ScanResult.found affectedFile
          { s with
            affectedFilesIndex := some j
            semanticDiagnosticsPerFile :=
              s.semanticDiagnosticsPerFile.map (fun m => delA m affectedFile) }
      | none => ScanResult.drained (drainBatch s) := by
  unfold scanBatch
  rw [haf]

theorem scanBatchW_eq_some (s : BuilderProgramState) (affectedFiles : List Path)
    (haf : s.affectedFiles = some affectedFiles) :
    scanBatchW s =
      match findUnseen affectedFiles (seenL s)
          (s.affectedFilesIndex.getD affectedFiles.length) with
      | some (j, affectedFile) =>
        ScanResult.found affectedFile
          { s with
            affectedFilesIndex := some j
            semanticDiagnosticsPerFile :=
              s.semanticDiagnosticsPerFile.map (fun m => delA m affectedFile) }
      | none =>
        ScanResult.drained
          (drainBatch { s with affectedFilesIndex := some affectedFiles.length }) := by
  unfold scanBatchW
  rw [haf]

theorem processRoots_succ_nil (gfa : GetFilesAffectedBy) (n : Nat)
    (s : BuilderProgramState) (hcs : s.changedFilesSet = []) :
    processRoots gfa (n + 1) s = (none, s) := by
  unfold processRoots
  rw [hcs]

theorem processRootsW_succ_nil (gfa : GetFilesAffectedBy) (n : Nat)
    (s : BuilderProgramState) (hcs : s.changedFilesSet = []) :
    processRootsW gfa (n + 1) s = (none, s) := by
  unfold processRootsW
  rw [hcs]

theorem processRoots_succ_cons (gfa : GetFilesAffectedBy) (n : Nat)
    (s : BuilderProgramState) (root : Path) (rest : List Path)
    (hcs : s.changedFilesSet = root :: rest) :
    processRoots gfa (n + 1) s =
      if s.program.outFile || s.program.out then
        (some AffectedUnit.wholeProgram, s)
      else
        match scanBatch (installBatch gfa s root) with
        | ScanResult.found f s₂ => (some (AffectedUnit.file f), s₂)
        | ScanResult.drained s₂ => processRoots gfa n s₂ := by
  conv_lhs => unfold processRoots
  rw [hcs]

theorem processRootsW_succ_cons (gfa : GetFilesAffectedBy) (n : Nat)
    (s : BuilderProgramState) (root : Path) (rest : List Path)
    (hcs : s.changedFilesSet = root :: rest) :
    processRootsW gfa (n + 1) s =
      if s.program.outFile || s.program.out then
        (some AffectedUnit.wholeProgram, s)
      else
        match scanBatchW (installBatch gfa s root) with
        | ScanResult.found f s₂ => (some (AffectedUnit.file f), s₂)
        | ScanResult.drained s₂ => processRootsW gfa n s₂ := by
  conv_lhs => unfold processRootsW
  rw [hcs]

theorem getNextAffectedFile_eq_none_branch (gfa : GetFilesAffectedBy)
    (s : BuilderProgramState) (haf : s.affectedFiles = none) :
    getNextAffectedFile gfa s = processRoots gfa s.changedFilesSet.length s := by
  unfold getNextAffectedFile
  rw [haf]

theorem getNextAffectedFileW_eq_none_branch (gfa : GetFilesAffectedBy)
    (s : BuilderProgramState) (haf : s.affectedFiles = none) :
    getNextAffectedFileW gfa s = processRootsW gfa s.changedFilesSet.length s := by
  unfold getNextAffectedFileW
  rw [haf]

theorem getNextAffectedFile_eq_some_branch (gfa : GetFilesAffectedBy)
    (s : BuilderProgramState) (affectedFiles : List Path)
    (haf : s.affectedFiles = some affectedFiles) :
    getNextAffectedFile gfa s =
      match scanBatch s with
      | ScanResult.found f s₁ => (some (AffectedUnit.file f), s₁)
      | ScanResult.drained s₁ =>
        processRoots gfa s₁.changedFilesSet.length s₁ := by
  unfold getNextAffectedFile
  rw [haf]

theorem getNextAffectedFileW_eq_some_branch (gfa : GetFilesAffectedBy)
    (s : BuilderProgramState) (affectedFiles : List Path)
    (haf : s.affectedFiles = some affectedFiles) :
    getNextAffectedFileW gfa s =
      match scanBatchW s with
      | ScanResult.found f s₁ => (some (AffectedUnit.file f), s₁)
      | ScanResult.drained s₁ =>
        processRootsW gfa s₁.changedFilesSet.length s₁ := by
  unfold getNextAffectedFileW
  rw [haf]

/-! ### The equivalence engine -/

theorem processRoots_obsEq (gfa : GetFilesAffectedBy) :
    ∀ (n : Nat) (s t : BuilderProgramState), obsEq s t →
      s.affectedFiles = none → t.affectedFiles = none →
      (processRoots gfa n s).1 = (processRoots gfa n t).1 ∧
      obsEq (processRoots gfa n s).2 (processRoots gfa n t).2 := by
  intro n
  induction n with
  | zero => intro s t h _ _; exact ⟨rfl, h⟩
  | succ n ih =>
    intro s t h hs ht
    have hch : s.changedFilesSet = t.changedFilesSet := h.2.2.2.1
    have hpr : s.program = t.program := h.2.2.2.2.2.2.2.2.1
    cases hcs : s.changedFilesSet with
    | nil =>
      rw [processRoots_succ_nil gfa n s hcs,
        processRoots_succ_nil gfa n t (hch ▸ hcs)]
      exact ⟨rfl, h⟩
    | cons root rest =>
      rw [processRoots_succ_cons gfa n s root rest hcs,
        processRoots_succ_cons gfa n t root rest (hch ▸ hcs)]
      rw [← hpr]
      by_cases hb : (s.program.outFile || s.program.out) = true
      · rw [if_pos hb, if_pos hb]
        exact ⟨rfl, h⟩
      · rw [if_neg hb, if_neg hb]
        rw [← installBatch_congr gfa s t h root]
        cases hscan : scanBatch (installBatch gfa s root) with
        | found f s₂ => exact ⟨rfl, obsEq_refl s₂⟩
        | drained s₂ => exact ⟨rfl, obsEq_refl _⟩

theorem processRootsW_equiv (gfa : GetFilesAffectedBy) :
    ∀ (n : Nat) (s t : BuilderProgramState), obsEq s t →
      s.affectedFiles = none → t.affectedFiles = none →
      (processRoots gfa n s).1 = (processRootsW gfa n t).1 ∧
      obsEq (processRoots gfa n s).2 (processRootsW gfa n t).2 := by
  intro n
  induction n with
  | zero => intro s t h _ _; exact ⟨rfl, h⟩
  | succ n ih =>
    intro s t h hs ht
    have hch : s.changedFilesSet = t.changedFilesSet := h.2.2.2.1
    have hpr : s.program = t.program := h.2.2.2.2.2.2.2.2.1
    cases hcs : s.changedFilesSet with
    | nil =>
      rw [processRoots_succ_nil gfa n s hcs,
        processRootsW_succ_nil gfa n t (hch ▸ hcs)]
      exact ⟨rfl, h⟩
    | cons root rest =>
      rw [processRoots_succ_cons gfa n s root rest hcs,
        processRootsW_succ_cons gfa n t root rest (hch ▸ hcs)]
      rw [← hpr]
      by_cases hb : (s.program.outFile || s.program.out) = true
      · rw [if_pos hb, if_pos hb]
        exact ⟨rfl, h⟩
      · rw [if_neg hb, if_neg hb]
        rw [← installBatch_congr gfa s t h root]
        have haf : (installBatch gfa s root).affectedFiles =
            some (gfa s.fileInfos s.referencedMap root).1 := rfl
        rw [scanBatch_eq_some _ _ haf, scanBatchW_eq_some _ _ haf]
        cases hfind : findUnseen (gfa s.fileInfos s.referencedMap root).1
            (seenL (installBatch gfa s root))
            ((installBatch gfa s root).affectedFilesIndex.getD
              (gfa s.fileInfos s.referencedMap root).1.length) with
        | some jf =>
          obtain ⟨j, f⟩ := jf
          exact ⟨rfl, obsEq_refl _⟩
        | none =>
          exact ih (drainBatch (installBatch gfa s root))
            (drainBatch { installBatch gfa s root with
              affectedFilesIndex :=
                some (gfa s.fileInfos s.referencedMap root).1.length })
            (drainBatch_obsEq_setIndex _ _) rfl rfl

theorem getSemanticDiagnosticsOfFile_eq_cached (s : BuilderProgramState)
    (f : Path) (d : List Diag) (hl : diagLookup s f = some d) :
    getSemanticDiagnosticsOfFile s f = (d, s) := by
  unfold getSemanticDiagnosticsOfFile
  rw [hl]

theorem getSemanticDiagnosticsOfFile_eq_miss (s : BuilderProgramState)
    (f : Path) (hl : diagLookup s f = none) :
    getSemanticDiagnosticsOfFile s f =
      (s.program.semanticDiagnosticsOf f,
        { s with
          semanticDiagnosticsPerFile :=
            s.semanticDiagnosticsPerFile.map
              (fun m => setA m f (s.program.semanticDiagnosticsOf f)) }) := by
  unfold getSemanticDiagnosticsOfFile
  rw [hl]

theorem c9aux_variant (gfa : GetFilesAffectedBy) (s : BuilderProgramState) :
    (getNextAffectedFile gfa s).1 = (getNextAffectedFileW gfa s).1 ∧
    obsEq (getNextAffectedFile gfa s).2 (getNextAffectedFileW gfa s).2 := by
  cases haf : s.affectedFiles with
  | none =>
    rw [getNextAffectedFile_eq_none_branch gfa s haf,
      getNextAffectedFileW_eq_none_branch gfa s haf]
    exact processRootsW_equiv gfa _ s s (obsEq_refl s) haf haf
  | some affectedFiles =>
    rw [getNextAffectedFile_eq_some_branch gfa s affectedFiles haf,
      getNextAffectedFileW_eq_some_branch gfa s affectedFiles haf,
      scanBatch_eq_some s affectedFiles haf, scanBatchW_eq_some s affectedFiles haf]
    cases hfind : findUnseen affectedFiles (seenL s)
        (s.affectedFilesIndex.getD affectedFiles.length) with
    | some jf =>
      obtain ⟨j, f⟩ := jf
      exact ⟨rfl, obsEq_refl _⟩
    | none =>
      exact processRootsW_equiv gfa _ (drainBatch s)
        (drainBatch { s with affectedFilesIndex := some affectedFiles.length })
        (drainBatch_obsEq_setIndex s affectedFiles.length) rfl rfl

theorem c9aux_next (gfa : GetFilesAffectedBy) (s t : BuilderProgramState)
    (h : obsEq s t) :
    (getNextAffectedFile gfa s).1 = (getNextAffectedFile gfa t).1 ∧
    obsEq (getNextAffectedFile gfa s).2 (getNextAffectedFile gfa t).2 := by
  cases haf : s.affectedFiles with
  | some af =>
    obtain rfl : s = t := obsEq_eq_of_isSome s t h (by rw [haf]; rfl)
    exact ⟨rfl, obsEq_refl _⟩
  | none =>
    have ht : t.affectedFiles = none := by rw [← h.2.2.2.2.1, haf]
    rw [getNextAffectedFile_eq_none_branch gfa s haf,
      getNextAffectedFile_eq_none_branch gfa t ht]
    have hch : s.changedFilesSet = t.changedFilesSet := h.2.2.2.1
    rw [hch]
    exact processRoots_obsEq gfa _ s t h haf ht

theorem c9aux_done (s t : BuilderProgramState) (a : AffectedUnit)
    (h : obsEq s t) :
    obsEq (doneWithAffectedFile s a) (doneWithAffectedFile t a) := by
  obtain ⟨h1, h2, h3, h4, h5, h6, h7, h8, h9, h10⟩ := h
  cases a with
  | wholeProgram => exact ⟨h1, h2, h3, rfl, h5, h6, h7, h8, h9, fun hx => h10 hx⟩
  | file f =>
    refine ⟨h1, h2, h3, h4, h5, h6, h7, ?_, h9, ?_⟩
    · show some (addS (seenL s) f) = some (addS (seenL t) f)
      rw [seenL_congr s t h8]
    · intro hx
      show s.affectedFilesIndex.map _ = t.affectedFilesIndex.map _
      rw [h10 hx]

theorem c9aux_diag (s t : BuilderProgramState) (f : Path) (h : obsEq s t) :
    (getSemanticDiagnosticsOfFile s f).1 = (getSemanticDiagnosticsOfFile t f).1 ∧
    obsEq (getSemanticDiagnosticsOfFile s f).2 (getSemanticDiagnosticsOfFile t f).2 := by
  have hd := diagLookup_congr s t h.2.2.1 f
  have hp : s.program = t.program := h.2.2.2.2.2.2.2.2.1
  cases hl : diagLookup s f with
  | some d =>
    have hlt : diagLookup t f = some d := by rw [← hd, hl]
    rw [getSemanticDiagnosticsOfFile_eq_cached s f d hl,
      getSemanticDiagnosticsOfFile_eq_cached t f d hlt]
    exact ⟨rfl, h⟩
  | none =>
    have hlt : diagLookup t f = none := by rw [← hd, hl]
    rw [getSemanticDiagnosticsOfFile_eq_miss s f hl,
      getSemanticDiagnosticsOfFile_eq_miss t f hlt]
    obtain ⟨h1, h2, h3, h4, h5, h6, h7, h8, h9, h10⟩ := h
    refine ⟨by rw [hp], h1, h2, ?_, h4, h5, h6, h7, h8, h9, fun hx => h10 hx⟩
    show s.semanticDiagnosticsPerFile.map _ = t.semanticDiagnosticsPerFile.map _
    rw [h3, hp]

theorem c9aux_assert (s t : BuilderProgramState) (f : Option Path)
    (h : obsEq s t) :
    assertSourceFileOkWithoutNextAffectedCall s f =
      assertSourceFileOkWithoutNextAffectedCall t f := by
  cases f with
  | none => rfl
  | some fp =>
    cases haf : s.affectedFiles with
    | some af =>
      obtain rfl : s = t := obsEq_eq_of_isSome s t h (by rw [haf]; rfl)
      rfl
    | none =>
      have ht : t.affectedFiles = none := by rw [← h.2.2.2.2.1, haf]
      have e1 : assertSourceFileOkWithoutNextAffectedCall s (some fp) = true := by
        unfold assertSourceFileOkWithoutNextAffectedCall
        rw [haf]
      have e2 : assertSourceFileOkWithoutNextAffectedCall t (some fp) = true := by
        unfold assertSourceFileOkWithoutNextAffectedCall
        rw [ht]
      rw [e1, e2]

/-- C9: the implemented next-affected (cursor written back only in the
found branch) and the variant that writes the cursor back unconditionally
return the same result and observationally identical states; and
observational equivalence is a bisimulation for every operation that reads
the state (next-affected, done-with, the diagnostics cache, and the
assertion), so the two forms are observably indistinguishable. -/
theorem c9_cursorWriteBackEquivalence :
    (∀ (gfa : GetFilesAffectedBy) (s : BuilderProgramState),
      (getNextAffectedFile gfa s).1 = (getNextAffectedFileW gfa s).1 ∧
      obsEq (getNextAffectedFile gfa s).2 (getNextAffectedFileW gfa s).2) ∧
    (∀ (gfa : GetFilesAffectedBy) (s t : BuilderProgramState), obsEq s t →
      (getNextAffectedFile gfa s).1 = (getNextAffectedFile gfa t).1 ∧
      obsEq (getNextAffectedFile gfa s).2 (getNextAffectedFile gfa t).2) ∧
    (∀ (s t : BuilderProgramState) (a : AffectedUnit), obsEq s t →
      obsEq (doneWithAffectedFile s a) (doneWithAffectedFile t a)) ∧
    (∀ (s t : BuilderProgramState) (f : Path), obsEq s t →
      (getSemanticDiagnosticsOfFile s f).1 = (getSemanticDiagnosticsOfFile t f).1 ∧
      obsEq (getSemanticDiagnosticsOfFile s f).2
        (getSemanticDiagnosticsOfFile t f).2) ∧
    (∀ (s t : BuilderProgramState) (f : Option Path), obsEq s t →
      assertSourceFileOkWithoutNextAffectedCall s f =
        assertSourceFileOkWithoutNextAffectedCall t f) :=
  ⟨c9aux_variant, c9aux_next, c9aux_done, c9aux_diag, c9aux_assert⟩

/-- Witness for C9 at concrete inputs (the bisimulation hypotheses are
discharged with reflexive observational equivalence). -/
theorem c9_cursorWriteBackEquivalence_witness :
    ((getNextAffectedFile exGfa exFresh).1 = (getNextAffectedFileW exGfa exFresh).1) ∧
    ((getNextAffectedFile exGfa exS1).1 = (getNextAffectedFile exGfa exS1).1) ∧
    obsEq (doneWithAffectedFile exS1 (AffectedUnit.file "a"))
      (doneWithAffectedFile exS1 (AffectedUnit.file "a")) ∧
    ((getSemanticDiagnosticsOfFile exS1 "a").1 =
      (getSemanticDiagnosticsOfFile exS1 "a").1) ∧
    (assertSourceFileOkWithoutNextAffectedCall exS1 (some "a") =
      assertSourceFileOkWithoutNextAffectedCall exS1 (some "a")) :=
  ⟨(c9_cursorWriteBackEquivalence.1 exGfa exFresh).1,
   (c9_cursorWriteBackEquivalence.2.1 exGfa exS1 exS1 (obsEq_refl exS1)).1,
   c9_cursorWriteBackEquivalence.2.2.1 exS1 exS1 (AffectedUnit.file "a")
     (obsEq_refl exS1),
   (c9_cursorWriteBackEquivalence.2.2.2.1 exS1 exS1 "a" (obsEq_refl exS1)).1,
   c9_cursorWriteBackEquivalence.2.2.2.2 exS1 exS1 (some "a") (obsEq_refl exS1)⟩

/-! ## Claim C3: cache purity -/

theorem createBuilderProgramState_diag (P : Program)
    (old : Option BuilderProgramState) :
    (createBuilderProgramState P old).semanticDiagnosticsPerFile =
      if P.outFile || P.out then none
      else some ((P.files.foldl
        (diffStep (canReuseOldState P.referencedMap old)
          (canCopySemanticDiagnostics P old) old P)
        ((if canReuseOldState P.referencedMap old then
            match old with
            | some o => o.changedFilesSet
            | none => []
          else []), [])).2) := rfl

theorem createBuilderProgramState_changed (P : Program)
    (old : Option BuilderProgramState) :
    (createBuilderProgramState P old).changedFilesSet =
      (P.files.foldl
        (diffStep (canReuseOldState P.referencedMap old)
          (canCopySemanticDiagnostics P old) old P)
        ((if canReuseOldState P.referencedMap old then
            match old with
            | some o => o.changedFilesSet
            | none => []
          else []), [])).1 := rfl

theorem diffStep_snd_false (u : Bool) (old : Option BuilderProgramState)
    (P : Program) (acc : List Path × List (Path × List Diag))
    (e : Path × FileInfo) : (diffStep u false old P acc e).2 = acc.2 := by
  by_cases h : isFileChanged u old P e.1 e.2 <;> simp [diffStep, h]

theorem foldl_diffStep_snd_false (u : Bool) (old : Option BuilderProgramState)
    (P : Program) :
    ∀ (files : List (Path × FileInfo)) (acc : List Path × List (Path × List Diag)),
      (List.foldl (diffStep u false old P) acc files).2 = acc.2 := by
  intro files
  induction files with
  | nil => intro acc; rfl
  | cons e rest ih =>
    intro acc
    rw [List.foldl_cons, ih]
    exact diffStep_snd_false u old P acc e

theorem diffStep_eq_changed (u cc : Bool) (old : Option BuilderProgramState)
    (P : Program) (acc : List Path × List (Path × List Diag))
    (e : Path × FileInfo) (h : isFileChanged u old P e.1 e.2 = true) :
    diffStep u cc old P acc e = (addS acc.1 e.1, acc.2) := by
  simp [diffStep, h]

theorem diffStep_eq_ccfalse (u : Bool) (old : Option BuilderProgramState)
    (P : Program) (acc : List Path × List (Path × List Diag))
    (e : Path × FileInfo) (h : isFileChanged u old P e.1 e.2 = false) :
    diffStep u false old P acc e = acc := by
  simp [diffStep, h]

theorem diffStep_eq_copy (u : Bool) (o : BuilderProgramState) (P : Program)
    (acc : List Path × List (Path × List Diag)) (e : Path × FileInfo)
    (dq : List Diag) (h : isFileChanged u (some o) P e.1 e.2 = false)
    (hod : (match o.semanticDiagnosticsPerFile with
            | some m => lookupA m e.1
            | none => none) = some dq) :
    diffStep u true (some o) P acc e = (acc.1, setA acc.2 e.1 dq) := by
  simp [diffStep, h, hod]

theorem diffStep_eq_nodiag (u : Bool) (o : BuilderProgramState) (P : Program)
    (acc : List Path × List (Path × List Diag)) (e : Path × FileInfo)
    (h : isFileChanged u (some o) P e.1 e.2 = false)
    (hod : (match o.semanticDiagnosticsPerFile with
            | some m => lookupA m e.1
            | none => none) = none) :
    diffStep u true (some o) P acc e = acc := by
  simp [diffStep, h, hod]

/-- Where a diagnostics entry in the freshly built cache comes from: either
it was already in the accumulator, or diagnostics copying is on and the
entry was copied from the old state's cache for a file that is not
changed. -/
theorem foldl_diffStep_snd_lookup (u cc : Bool) (o : BuilderProgramState)
    (P : Program) :
    ∀ (files : List (Path × FileInfo))
      (acc : List Path × List (Path × List Diag)) (p : Path) (d : List Diag),
      lookupA (List.foldl (diffStep u cc (some o) P) acc files).2 p = some d →
      lookupA acc.2 p = some d ∨
      (cc = true ∧
        (match o.semanticDiagnosticsPerFile with
         | some m => lookupA m p
         | none => none) = some d ∧
        ∃ info, (p, info) ∈ files ∧
          isFileChanged u (some o) P p info = false) := by
  intro files
  induction files with
  | nil => intro acc p d h; exact Or.inl h
  | cons e rest ih =>
    intro acc p d h
    rw [List.foldl_cons] at h
    obtain ⟨q, info⟩ := e
    by_cases hch : isFileChanged u (some o) P q info = true
    · rw [diffStep_eq_changed u cc (some o) P acc (q, info) hch] at h
      rcases ih _ p d h with hl | ⟨hcc, hod, info', hm, hnc⟩
      · exact Or.inl hl
      · exact Or.inr ⟨hcc, hod, info', List.mem_cons_of_mem _ hm, hnc⟩
    · have hch' : isFileChanged u (some o) P q info = false :=
        Bool.not_eq_true _ ▸ eq_false_of_ne_true hch
      cases hcc : cc with
      | false =>
        rw [hcc] at h
        rw [diffStep_eq_ccfalse u (some o) P acc (q, info) hch'] at h
        rcases ih _ p d (by rw [hcc] at ih ⊢; exact h) with hl | ⟨hcc', _, _⟩
        · exact Or.inl hl
        · exact absurd hcc' (by rw [hcc]; simp)
      | true =>
        rw [hcc] at h
        cases hod : (match o.semanticDiagnosticsPerFile with
                     | some m => lookupA m q
                     | none => none) with
        | some dq =>
          rw [diffStep_eq_copy u o P acc (q, info) dq hch' hod] at h
          rcases ih _ p d (by rw [hcc]; exact h) with hl | ⟨_, hod', info', hm, hnc⟩
          · rw [lookupA_setA] at hl
            by_cases hpq : q = p
            · subst hpq
              rw [if_pos rfl] at hl
              exact Or.inr ⟨rfl, hod.trans hl, info,
                List.mem_cons_self _ _, hch'⟩
            · rw [if_neg hpq] at hl
              exact Or.inl hl
          · exact Or.inr ⟨rfl, hod', info', List.mem_cons_of_mem _ hm, hnc⟩
        | none =>
          rw [diffStep_eq_nodiag u o P acc (q, info) hch' hod] at h
          rcases ih _ p d (by rw [hcc]; exact h) with hl | ⟨_, hod', info', hm, hnc⟩
          · exact Or.inl hl
          · exact Or.inr ⟨rfl, hod', info', List.mem_cons_of_mem _ hm, hnc⟩

theorem keys_nodup_mem_unique (l : List (Path × FileInfo))
    (h : (l.map Prod.fst).Nodup) (p : Path) (i1 i2 : FileInfo)
    (h1 : (p, i1) ∈ l) (h2 : (p, i2) ∈ l) : i1 = i2 := by
  induction l with
  | nil => cases h1
  | cons e rest ih =>
    obtain ⟨q, i⟩ := e
    rw [List.map_cons, List.nodup_cons] at h
    rcases List.mem_cons.1 h1 with e1 | m1 <;> rcases List.mem_cons.1 h2 with e2 | m2
    · obtain ⟨rfl, rfl⟩ : p = q ∧ i1 = i := by
        constructor <;> cases e1 <;> rfl
      obtain ⟨_, rfl⟩ : p = p ∧ i2 = i1 := by
        constructor <;> cases e2 <;> rfl
      rfl
    · obtain ⟨rfl, rfl⟩ : p = q ∧ i1 = i := by
        constructor <;> cases e1 <;> rfl
      exact absurd (List.mem_map_of_mem Prod.fst m2) h.1
    · obtain ⟨rfl, rfl⟩ : p = q ∧ i2 = i := by
        constructor <;> cases e2 <;> rfl
      exact absurd (List.mem_map_of_mem Prod.fst m1) h.1
    · exact ih h.2 m1 m2

theorem diagLookup_eq_matchAlt (o : BuilderProgramState) (p : Path) :
    diagLookup o p = (match o.semanticDiagnosticsPerFile with
                      | some m => lookupA m p
                      | none => none) := by
  unfold diagLookup
  cases o.semanticDiagnosticsPerFile <;> rfl

theorem cachePure_fresh (P : Program) :
    CachePure (createBuilderProgramState P none, none) := by
  intro p d hd
  exfalso
  have hnone : diagLookup (createBuilderProgramState P none) p = none := by
    unfold diagLookup
    rw [createBuilderProgramState_diag]
    by_cases hb : (P.outFile || P.out) = true
    · rw [if_pos hb]
    · rw [if_neg hb]
      have hcc : canCopySemanticDiagnostics P none = false := rfl
      rw [hcc, foldl_diffStep_snd_false]
      rfl
  rw [hnone] at hd
  exact Option.noConfusion hd

theorem cachePure_freshOld (P : Program) (o : BuilderProgramState)
    (hnd : (P.files.map Prod.fst).Nodup) (hpure : oldStateDiagnosticsPure P o) :
    CachePure (createBuilderProgramState P (some o), none) := by
  intro p d hd
  refine ⟨by simp, ?_⟩
  intro hmem
  exfalso
  have hdiag : lookupA
      ((P.files.foldl
        (diffStep (canReuseOldState P.referencedMap (some o))
          (canCopySemanticDiagnostics P (some o)) (some o) P)
        ((if canReuseOldState P.referencedMap (some o) then o.changedFilesSet
          else []), [])).2) p = some d := by
    unfold diagLookup at hd
    rw [createBuilderProgramState_diag] at hd
    by_cases hb : (P.outFile || P.out) = true
    · rw [if_pos hb] at hd
      exact Option.noConfusion hd
    · rw [if_neg hb] at hd
      exact hd
  rcases foldl_diffStep_snd_lookup _ _ o P P.files _ p d hdiag with hl | ⟨hcc, hod, info, hm, hnc⟩
  · exact Option.noConfusion hl
  · -- p has a copied entry: p is unchanged and the old cache holds p.
    -- But p ∈ changedFilesSet, which is the copied old set plus changed files.
    rw [createBuilderProgramState_changed] at hmem
    rw [foldl_diffStep_mem] at hmem
    rcases hmem with h0 | ⟨info', hm', hc'⟩
    · -- copied from the old changed set: the construction assert forbids a
      -- cached entry for it.
      by_cases hre : canReuseOldState P.referencedMap (some o) = true
      · rw [if_pos hre] at h0
        have hfalse := hpure hcc p h0
        have hdl : diagLookup o p = some d := by
          rw [diagLookup_eq_matchAlt, hod]
        unfold diagHas at hfalse
        rw [hdl] at hfalse
        exact Bool.noConfusion hfalse
      · rw [if_neg hre] at h0
        cases h0
    · -- flagged changed by the loop: contradicts the unchanged copy origin.
      have : info' = info := keys_nodup_mem_unique P.files hnd p info' info hm' hm
      rw [this, hnc] at hc'
      exact Bool.noConfusion hc'

theorem cachePure_next (gfa : GetFilesAffectedBy) (s : BuilderProgramState)
    (p : Option AffectedUnit) (r : Option AffectedUnit)
    (s' : BuilderProgramState)
    (hnext : getNextAffectedFile gfa s = (r, s'))
    (hC : CachePure (s, p)) : CachePure (s', r) := by
  intro q d hd
  obtain ⟨hdm, hcm, hsm, _⟩ := getNextAffectedFile_facts gfa s r s' hnext
  have hds := hdm q d hd
  constructor
  · cases r with
    | none => simp
    | some a =>
      cases a with
      | wholeProgram => simp
      | file f =>
        obtain ⟨_, _, _, _, _, _, hdiagf⟩ :=
          getNextAffectedFile_yield gfa s f s' hnext
        intro hq
        obtain rfl : f = q := by
          cases hq
          rfl
        rw [hdiagf] at hd
        exact Option.noConfusion hd
  · intro hq
    rw [hsm]
    exact (hC q d hds).2 (hcm q hq)

theorem cachePure_done (s : BuilderProgramState) (a : AffectedUnit)
    (hC : CachePure (s, some a)) :
    CachePure (doneWithAffectedFile s a, none) := by
  intro q d hd
  rw [doneWith_diagLookup] at hd
  refine ⟨by simp, ?_⟩
  intro hq
  cases a with
  | wholeProgram =>
    exact absurd hq (by simp [doneWithAffectedFile])
  | file f =>
    have hq' : q ∈ s.changedFilesSet := hq
    have := (hC q d hd).2 hq'
    show q ∈ addS (seenL s) f
    rw [mem_addS]
    exact Or.inl this

theorem cachePure_query (s : BuilderProgramState) (p : Option AffectedUnit)
    (f : Path) (hp : p ≠ some (AffectedUnit.file f))
    (hf : f ∉ s.changedFilesSet) (hC : CachePure (s, p)) :
    CachePure ((getSemanticDiagnosticsOfFile s f).2, p) := by
  intro q d hd
  obtain ⟨hch, hse, _, _, _, _, hdm⟩ := getSemanticDiagnosticsOfFile_facts s f
  rcases hdm q d hd with rfl | hold
  · exact ⟨hp, fun hmem => absurd (hch ▸ hmem) hf⟩
  · refine ⟨(hC q d hold).1, ?_⟩
    intro hmem
    rw [hse]
    exact (hC q d hold).2 (hch ▸ hmem)

theorem cachePure_diagNext (gfa : GetFilesAffectedBy) (s : BuilderProgramState)
    (p : Option AffectedUnit) (f : Path) (s₁ : BuilderProgramState)
    (hnext : getNextAffectedFile gfa s = (some (AffectedUnit.file f), s₁))
    (hC : CachePure (s, p)) :
    CachePure
      (doneWithAffectedFile (getSemanticDiagnosticsOfFile s₁ f).2
        (AffectedUnit.file f), none) := by
  have hC1 : CachePure (s₁, some (AffectedUnit.file f)) :=
    cachePure_next gfa s p _ s₁ hnext hC
  intro q d hd
  refine ⟨by simp, ?_⟩
  intro hq
  rw [doneWith_diagLookup] at hd
  obtain ⟨hch, hse, _, _, _, _, hdm⟩ := getSemanticDiagnosticsOfFile_facts s₁ f
  show q ∈ addS (seenL (getSemanticDiagnosticsOfFile s₁ f).2) f
  rw [mem_addS, hse]
  rcases hdm q d hd with rfl | hold
  · exact Or.inr rfl
  · have hq' : q ∈ s₁.changedFilesSet := by
      have : q ∈ (getSemanticDiagnosticsOfFile s₁ f).2.changedFilesSet := hq
      rwa [hch] at this
    exact Or.inl ((hC1 q d hold).2 hq')

theorem cachePure_of_reach (gfa : GetFilesAffectedBy)
    (c : BuilderProgramState × Option AffectedUnit) (h : ReachB gfa c) :
    CachePure c := by
  induction h with
  | fresh P => exact cachePure_fresh P
  | freshOld P o hnd hpure => exact cachePure_freshOld P o hnd hpure
  | step c c' hr hstep ih =>
    cases hstep with
    | next s p r s' hnext => exact cachePure_next gfa s p r s' hnext ih
    | done s a => exact cachePure_done s a ih
    | query s p f hp hf => exact cachePure_query s p f hp hf ih
    | diagNext s p f s₁ hnext => exact cachePure_diagNext gfa s p f s₁ hnext ih

/-- C3 counterexample: one composite next-affected diagnostics operation
from a fresh state (`getSemanticDiagnosticsOfNextAffectedFile`: yield `a`,
compute and cache its diagnostics, done-with) reaches a state in which `a`
has a non-empty cached entry while `a` is still in `changedFilesSet` — the
root is removed from the changed set only when its batch fully drains, not
when it is committed. -/
theorem c3_counterexample :
    getNextAffectedFile exGfa exFresh = (some (AffectedUnit.file "a"), exS1) ∧
    exC3 = doneWithAffectedFile (getSemanticDiagnosticsOfFile exS1 "a").2
      (AffectedUnit.file "a") ∧
    diagLookup exC3 "a" = some ["d"] ∧ (["d"] : List Diag) ≠ [] ∧
    "a" ∈ exC3.changedFilesSet := by
  refine ⟨by decide, rfl, by decide, by decide, by decide⟩

/-- C3 amended: in every configuration reachable from a freshly constructed
state by next-affected, done-with, the composite next-affected diagnostics
operation, and per-file diagnostic queries restricted as the code assumes
(only for files that are neither the pending yielded-but-uncommitted unit
nor still in `changedFilesSet`), every path with a (non-empty) cached entry
is not the pending yielded-but-uncommitted file, and if it is still in
`changedFilesSet` then it has already been processed (it is in
`seenAffectedFiles`); the original claim's unconditional
`p ∉ changedFilesSet` does not hold for a committed root mid-batch. -/
theorem c3_cachePurity (gfa : GetFilesAffectedBy) (s : BuilderProgramState)
    (pend : Option AffectedUnit) (h : ReachB gfa (s, pend)) (p : Path)
    (d : List Diag) (hd : diagLookup s p = some d) (hne : d ≠ []) :
    pend ≠ some (AffectedUnit.file p) ∧
    (p ∈ s.changedFilesSet → p ∈ seenL s) :=
  cachePure_of_reach gfa (s, pend) h p d hd

/-- Witness for C3 at the concrete reachable configuration `exC3`. -/
theorem c3_cachePurity_witness :
    (none : Option AffectedUnit) ≠ some (AffectedUnit.file "a") ∧
    ("a" ∈ exC3.changedFilesSet → "a" ∈ seenL exC3) :=
  c3_cachePurity exGfa exC3 none
    (ReachB.step (exFresh, none) (exC3, none) (ReachB.fresh exProgram)
      (BStep.diagNext exFresh none "a" exS1 (by decide)))
    "a" ["d"] (by decide) (by decide)

/-! ## Claim C8: the seen set versus installed batches -/

theorem batchPaths_congr (s t : BuilderProgramState)
    (h : s.affectedFiles = t.affectedFiles) : batchPaths s = batchPaths t := by
  unfold batchPaths
  rw [h]

theorem mem_batchPaths_of_getElem (s : BuilderProgramState)
    (affectedFiles : List Path) (j : Nat) (f : Path)
    (haf : s.affectedFiles = some affectedFiles)
    (hget : affectedFiles[j]? = some f) : f ∈ batchPaths s := by
  unfold batchPaths
  rw [haf]
  have hj : j < affectedFiles.length := by
    by_contra hge
    rw [List.getElem?_eq_none (by omega)] at hget
    exact Option.noConfusion hget
  rw [List.getElem?_eq_getElem hj] at hget
  obtain rfl : affectedFiles[j] = f := Option.some.inj hget
  exact List.getElem_mem hj

theorem seenInBatches_fresh (P : Program) (old : Option BuilderProgramState) :
    SeenInBatches (createBuilderProgramState P old, none) [] := by
  refine ⟨?_, ?_, ?_⟩
  · intro q hq
    exact absurd hq (by simp [seenL, createBuilderProgramState])
  · intro q hq
    exact absurd hq (by simp [batchPaths, createBuilderProgramState])
  · intro f hf
    exact absurd hf (by simp)

theorem seenInBatches_next (gfa : GetFilesAffectedBy) (s : BuilderProgramState)
    (p : Option AffectedUnit) (acc : List Path) (r : Option AffectedUnit)
    (s' : BuilderProgramState)
    (hnext : getNextAffectedFile gfa s = (r, s'))
    (hI : SeenInBatches (s, p) acc) :
    SeenInBatches (s', r) (acc ++ batchPaths s') := by
  obtain ⟨_, _, hsm, _⟩ := getNextAffectedFile_facts gfa s r s' hnext
  refine ⟨?_, ?_, ?_⟩
  · intro q hq
    rw [hsm] at hq
    exact List.mem_append_left _ (hI.1 q hq)
  · intro q hq
    exact List.mem_append_right _ hq
  · intro f hf
    subst hf
    obtain ⟨affectedFiles, j, haf, _, hget, _, _⟩ :=
      getNextAffectedFile_yield gfa s f s' hnext
    exact mem_batchPaths_of_getElem s' affectedFiles j f haf hget

theorem seenInBatches_done (s : BuilderProgramState) (a : AffectedUnit)
    (acc : List Path) (hI : SeenInBatches (s, some a) acc) :
    SeenInBatches (doneWithAffectedFile s a, none) acc := by
  have hbatch : batchPaths (doneWithAffectedFile s a) = batchPaths s :=
    batchPaths_congr _ _ (doneWith_affected s a)
  refine ⟨?_, ?_, ?_⟩
  · intro q hq
    cases a with
    | wholeProgram => exact hI.1 q hq
    | file f =>
      have hq' : q ∈ addS (seenL s) f := hq
      rcases (mem_addS _ _ _).1 hq' with hin | rfl
      · exact hI.1 q hin
      · exact hI.2.1 q (hI.2.2 q rfl)
  · intro q hq
    rw [hbatch] at hq
    exact hI.2.1 q hq
  · intro f hf
    exact absurd hf (by simp)

theorem seenInBatches_query (s : BuilderProgramState) (p : Option AffectedUnit)
    (f : Path) (acc : List Path) (hI : SeenInBatches (s, p) acc) :
    SeenInBatches ((getSemanticDiagnosticsOfFile s f).2, p) acc := by
  obtain ⟨_, hse, haf, _, _, _, _⟩ := getSemanticDiagnosticsOfFile_facts s f
  have hbatch : batchPaths (getSemanticDiagnosticsOfFile s f).2 = batchPaths s :=
    batchPaths_congr _ _ haf
  refine ⟨?_, ?_, ?_⟩
  · intro q hq
    rw [hse] at hq
    exact hI.1 q hq
  · intro q hq
    rw [hbatch] at hq
    exact hI.2.1 q hq
  · intro g hg
    rw [hbatch]
    exact hI.2.2 g hg

theorem seenInBatches_diagNext (gfa : GetFilesAffectedBy)
    (s : BuilderProgramState) (p : Option AffectedUnit) (f : Path)
    (s₁ : BuilderProgramState) (acc : List Path)
    (hnext : getNextAffectedFile gfa s = (some (AffectedUnit.file f), s₁))
    (hI : SeenInBatches (s, p) acc) :
    SeenInBatches
      (doneWithAffectedFile (getSemanticDiagnosticsOfFile s₁ f).2
        (AffectedUnit.file f), none) (acc ++ batchPaths s₁) := by
  have hI1 : SeenInBatches (s₁, some (AffectedUnit.file f))
      (acc ++ batchPaths s₁) := seenInBatches_next gfa s p acc _ s₁ hnext hI
  have hI2 : SeenInBatches ((getSemanticDiagnosticsOfFile s₁ f).2,
      some (AffectedUnit.file f)) (acc ++ batchPaths s₁) :=
    seenInBatches_query s₁ _ f _ hI1
  exact seenInBatches_done _ _ _ hI2

theorem seenInBatches_of_reachAcc (gfa : GetFilesAffectedBy)
    (c : BuilderProgramState × Option AffectedUnit) (acc : List Path)
    (h : ReachAcc gfa c acc) : SeenInBatches c acc := by
  induction h with
  | fresh P => exact seenInBatches_fresh P none
  | freshOld P o => exact seenInBatches_fresh P (some o)
  | next s p acc r s' hr hnext ih => exact seenInBatches_next gfa s p acc r s' hnext ih
  | done s a acc hr ih => exact seenInBatches_done s a acc ih
  | query s p f acc hr ih => exact seenInBatches_query s p f acc ih
  | diagNext s p f s₁ acc hr hnext ih =>
    exact seenInBatches_diagNext gfa s p f s₁ acc hnext ih

/-- C8 counterexample: from a fresh two-file state, process `a` (batch
`[a]`), then let the next call drain `a`'s batch, install the batch `[c]`
and yield `c`.  In the resulting state the batch in progress is `[c]` but
`seenAffectedFiles` still contains `a` — the seen set is never cleared
between batches, so it is not a subset of the current `affectedFiles`
sequence. -/
theorem c8_counterexample :
    getNextAffectedFile exGfa ex2S0 = (some (AffectedUnit.file "a"), ex2S1) ∧
    ex2S2 = doneWithAffectedFile ex2S1 (AffectedUnit.file "a") ∧
    getNextAffectedFile exGfa ex2S2 = (some (AffectedUnit.file "c"), ex2S3) ∧
    ex2S3.affectedFiles = some ["c"] ∧
    "a" ∈ seenL ex2S3 ∧ "a" ∉ batchPaths ex2S3 := by
  refine ⟨by decide, rfl, by decide, by decide, by decide, by decide⟩

/-- C8 amended: in every reachable configuration, `seenAffectedFiles` is a
subset of the accumulated paths of all the batches installed so far in this
state's lifetime (the seen set persists across batches — deliberately, so a
file processed once per program generation is never re-processed — so it
need not be a subset of the current batch alone). -/
theorem c8_seenWithinInstalledBatches (gfa : GetFilesAffectedBy)
    (s : BuilderProgramState) (pend : Option AffectedUnit) (acc : List Path)
    (h : ReachAcc gfa (s, pend) acc) (q : Path) (hq : q ∈ seenL s) :
    q ∈ acc :=
  (seenInBatches_of_reachAcc gfa (s, pend) acc h).1 q hq

/-- Witness for C8 along the concrete two-batch trace. -/
theorem c8_seenWithinInstalledBatches_witness :
    "a" ∈ (([] ++ batchPaths ex2S1) ++ batchPaths ex2S3) :=
  c8_seenWithinInstalledBatches exGfa ex2S3 (some (AffectedUnit.file "c"))
    (([] ++ batchPaths ex2S1) ++ batchPaths ex2S3)
    (ReachAcc.next ex2S2 none ([] ++ batchPaths ex2S1)
      (some (AffectedUnit.file "c")) ex2S3
      (ReachAcc.done ex2S1 (AffectedUnit.file "a") ([] ++ batchPaths ex2S1)
        (ReachAcc.next ex2S0 none [] (some (AffectedUnit.file "a")) ex2S1
          (ReachAcc.fresh exProgram2) (by decide)))
      (by decide))
    "a" (by decide)

end ts
